import Mathlib

/-!
Shallow embedding of the translation evaluation engine of
src/mt_eval/src/evaluator.py and proofs about it.

Python floats are modelled as rationals (ℚ); the external metric libraries
(SacreBLEU, rouge-score, bert-score, BLEURT, COMET, NLTK METEOR) are modelled
as abstract scoring functions bundled in an environment record.  A scorer that
raises an exception is modelled as returning none; the try/except blocks of
the source then yield an empty score list.
-/

/-- A value stored in the free-form details dictionary of a score:
either a number or a string. -/
inductive DVal where
  | rval (q : Rat)
  | sval (s : String)
deriving DecidableEq

/-- Embeds dataclass EvaluationScore: a single evaluation score. -/
structure EvaluationScore where
  metric_name : String
  score : Rat
  details : List (String × DVal)
deriving DecidableEq

/-- Embeds dataclass ChunkEvaluation: evaluation results for a single chunk.
per_reference_scores maps a reference id to a metric-name/score table. -/
structure ChunkEvaluation where
  chunk_id : String
  model_name : String
  scores : List EvaluationScore
  per_reference_scores : List (String × List (String × Rat))
deriving DecidableEq

/-- The evaluator's environment: the set of successfully initialised metric
handlers (metric_handlers.keys()) plus the external scoring libraries, one
abstract function per library call site.  A none result models the library
raising an exception at that call.  GPU/device configuration is considered
baked into the functions. -/
structure Env where
  /-- active metric keys, e.g. "bleu", "rouge", ... -/
  handlers : List String
  /-- SacreBLEU BLEU.sentence_score hypothesis references ↦ (score on 0..100, brevity penalty) -/
  bleuRaw : String → List String → Option (Rat × Rat)
  /-- SacreBLEU CHRF.sentence_score hypothesis references ↦ score on 0..100 -/
  chrfRaw : String → List String → Option Rat
  /-- NLTK meteor_score (tokenisation folded in) hypothesis references ↦ score -/
  meteor : String → List String → Option Rat
  /-- rouge_scorer.score reference hypothesis ↦ rougeL (fmeasure, precision, recall) -/
  rouge : String → String → Option (Rat × Rat × Rat)
  /-- bert_score.score hypothesis reference ↦ (P, R, F1) -/
  bert : String → String → Option (Rat × Rat × Rat)
  /-- BleurtScorer.score reference hypothesis ↦ score -/
  bleurt : String → String → Option Rat
  /-- COMET model.predict source hypothesis reference ↦ score -/
  comet : String → String → String → Option Rat

/-- The best-so-far loop shared by the max-over-references metrics
(ROUGE-L, BLEURT, COMET): iterate over the references, keep the candidate
with the strictly largest value, record its 1-based index.  The accumulator
none models the Python initialisations best_score = None / -inf (every real
compares greater than -inf, so the first reference always wins there).
A none from fetch models the scorer raising, which aborts the whole try
block. -/
def bestGo {α : Type} (fetch : String → Option α) (val : α → Rat) :
    List String → Nat → Option (α × Nat) → Option (α × Nat)
  | [], _, acc => acc
  | r :: rs, idx, acc =>
    match fetch r with
    | none => none
    | some a =>
      match acc with
      | none => bestGo fetch val rs (idx + 1) (some (a, idx + 1))
      | some (b, bi) =>
        if val a > val b then bestGo fetch val rs (idx + 1) (some (a, idx + 1))
        else bestGo fetch val rs (idx + 1) (some (b, bi))

/-- The BERTScore loop (Evaluator.evaluate_bertscore): like bestGo but the
source carries the threshold best_f1 (initially -1) separately from the
best result (initially None).  The outer Option models the scorer raising;
the inner Option is best_result, none if no reference ever had F1 above the
running threshold. -/
def bertGo (fetch : String → Option (Rat × Rat × Rat)) :
    List String → Nat → Rat → Option ((Rat × Rat × Rat) × Nat) →
    Option (Option ((Rat × Rat × Rat) × Nat))
  | [], _, _, best => some best
  | r :: rs, idx, bestF1, best =>
    match fetch r with
    | none => none
    | some prf =>
      if prf.2.2 > bestF1 then bertGo fetch rs (idx + 1) prf.2.2 (some (prf, idx + 1))
      else bertGo fetch rs (idx + 1) bestF1 best

/-- Embeds Evaluator.evaluate_bleu: SacreBLEU sentence score over the full
reference list, normalised from 0..100 to 0..1. -/
def evaluate_bleu (env : Env) (hypothesis : String) (references : List String) :
    List EvaluationScore :=
  if "bleu" ∈ env.handlers then
    match env.bleuRaw hypothesis references with
    | none => []
    | some res =>
      [{ metric_name := "BLEU-4", score := res.1 / 100,
         details := [("raw_score", .rval res.1),
                     ("brevity_penalty", .rval res.2),
                     ("num_references", .rval (references.length : Rat))] }]
  else []

/-- Embeds Evaluator.evaluate_chrf: chrF++ sentence score over the full
reference list, normalised from 0..100 to 0..1. -/
def evaluate_chrf (env : Env) (hypothesis : String) (references : List String) :
    List EvaluationScore :=
  if "chrf" ∈ env.handlers then
    match env.chrfRaw hypothesis references with
    | none => []
    | some raw =>
      [{ metric_name := "chrF++", score := raw / 100,
         details := [("raw_score", .rval raw),
                     ("num_references", .rval (references.length : Rat)),
                     ("word_order", .rval 2)] }]
  else []

/-- Embeds Evaluator.evaluate_meteor: METEOR handles the multiple references
natively (tokenisation is folded into the abstract scorer). -/
def evaluate_meteor (env : Env) (hypothesis : String) (references : List String) :
    List EvaluationScore :=
  if "meteor" ∈ env.handlers then
    match env.meteor hypothesis references with
    | none => []
    | some s =>
      [{ metric_name := "METEOR", score := s,
         details := [("num_references", .rval (references.length : Rat))] }]
  else []

/-- Embeds Evaluator.evaluate_rouge: ROUGE-L against each reference, taking
the max fmeasure; best_score = None initially, so with an empty reference
list the final subscript raises and the except returns []. -/
def evaluate_rouge (env : Env) (hypothesis : String) (references : List String) :
    List EvaluationScore :=
  if "rouge" ∈ env.handlers then
    match bestGo (fun r => env.rouge r hypothesis) (fun t => t.1) references 0 none with
    | none => []
    | some best =>
      [{ metric_name := "ROUGE-L", score := best.1.1,
         details := [("precision", .rval best.1.2.1),
                     ("recall", .rval best.1.2.2),
                     ("best_reference", .rval (best.2 : Rat)),
                     ("num_references", .rval (references.length : Rat)),
                     ("aggregation", .sval "max")] }]
  else []

/-- Embeds Evaluator.evaluate_bertscore: BERTScore against each reference,
taking the max F1 (threshold initialised to -1); if best_result is still
None at the end, the subscript raises and the except returns []. -/
def evaluate_bertscore (env : Env) (hypothesis : String) (references : List String) :
    List EvaluationScore :=
  if "bertscore" ∈ env.handlers then
    match bertGo (fun r => env.bert hypothesis r) references 0 (-1) none with
    | none => []
    | some none => []
    | some (some best) =>
      [{ metric_name := "BERTScore", score := best.1.2.2,
         details := [("precision", .rval best.1.1),
                     ("recall", .rval best.1.2.1),
                     ("f1", .rval best.1.2.2),
                     ("best_reference", .rval (best.2 : Rat)),
                     ("num_references", .rval (references.length : Rat)),
                     ("aggregation", .sval "max")] }]
  else []

/-- Embeds Evaluator.evaluate_bleurt: BLEURT against each reference, taking
the max; best_score = -inf initially.  (With an empty reference list the
source would emit the sentinel -inf itself, which has no rational
counterpart; every claim concerns nonempty reference lists, where the first
reference always replaces the -inf and this definition agrees with the
source exactly.) -/
def evaluate_bleurt (env : Env) (hypothesis : String) (references : List String) :
    List EvaluationScore :=
  if "bleurt" ∈ env.handlers then
    match bestGo (fun r => env.bleurt r hypothesis) (fun s => s) references 0 none with
    | none => []
    | some best =>
      [{ metric_name := "BLEURT", score := best.1,
         details := [("best_reference", .rval (best.2 : Rat)),
                     ("num_references", .rval (references.length : Rat)),
                     ("aggregation", .sval "max")] }]
  else []

/-- Embeds Evaluator.evaluate_comet: COMET (needs the source text) against
each reference, taking the max; best_score = -inf initially (see the
evaluate_bleurt note about the empty reference list). -/
def evaluate_comet (env : Env) (hypothesis : String) (references : List String)
    (source : String) : List EvaluationScore :=
  if "comet" ∈ env.handlers then
    match bestGo (fun r => env.comet source hypothesis r) (fun s => s) references 0 none with
    | none => []
    | some best =>
      [{ metric_name := "COMET", score := best.1,
         details := [("best_reference", .rval (best.2 : Rat)),
                     ("num_references", .rval (references.length : Rat)),
                     ("aggregation", .sval "max")] }]
  else []

/-- The guarded COMET block of Evaluator.evaluate_single: COMET runs only
when source is truthy (neither None nor empty). -/
def cometPart (env : Env) (hypothesis : String) (references : List String)
    (source : Option String) : List EvaluationScore :=
  match source with
  | none => []
  | some s => if s = "" then [] else evaluate_comet env hypothesis references s

/-- Embeds Evaluator.evaluate_single: all metrics against the full reference
list. -/
def evaluate_single (env : Env) (hypothesis : String) (references : List String)
    (source : Option String) : List EvaluationScore :=
  evaluate_bleu env hypothesis references ++
  evaluate_chrf env hypothesis references ++
  evaluate_meteor env hypothesis references ++
  evaluate_rouge env hypothesis references ++
  evaluate_bertscore env hypothesis references ++
  evaluate_bleurt env hypothesis references ++
  cometPart env hypothesis references source

/-- The loop body of Evaluator.evaluate_per_reference: scores the hypothesis
against one single reference with every metric. -/
def singleRefScores (env : Env) (hypothesis : String) (reference : String)
    (source : Option String) : List EvaluationScore :=
  evaluate_bleu env hypothesis [reference] ++
  evaluate_chrf env hypothesis [reference] ++
  evaluate_meteor env hypothesis [reference] ++
  evaluate_rouge env hypothesis [reference] ++
  evaluate_bertscore env hypothesis [reference] ++
  evaluate_bleurt env hypothesis [reference] ++
  cometPart env hypothesis [reference] source

/-- The enumerate(references, 1) loop of Evaluator.evaluate_per_reference. -/
def perRefGo (env : Env) (hypothesis : String) (source : Option String) :
    List String → Nat → List (String × List EvaluationScore)
  | [], _ => []
  | r :: rs, i =>
    ("ref" ++ toString i, singleRefScores env hypothesis r source) ::
      perRefGo env hypothesis source rs (i + 1)

/-- Embeds Evaluator.evaluate_per_reference: a table mapping refN to the
scores of the hypothesis against that single reference. -/
def evaluate_per_reference (env : Env) (hypothesis : String) (references : List String)
    (source : Option String) : List (String × List EvaluationScore) :=
  perRefGo env hypothesis source references 1

/-- The per-reference table as stored by Evaluator.evaluate_chunk: each score
list collapsed to a metric-name/score dictionary.  (The metric names inside
one score list are pairwise distinct fixed strings, so the Python dict
comprehension never collapses entries and this list is faithful.) -/
def perRefTable (env : Env) (hypothesis : String) (references : List String)
    (source : Option String) : List (String × List (String × Rat)) :=
  (evaluate_per_reference env hypothesis references source).map
    (fun p => (p.1, p.2.map (fun s => (s.metric_name, s.score))))

/-- The guard of Evaluator.evaluate_chunk, Python's
not translation or translation.strip() == '': true exactly when every
character of the translation is whitespace (in particular for the empty
string, making the first disjunct redundant). -/
def isBlank (s : String) : Bool := s.data.all Char.isWhitespace

/-- Embeds Evaluator.evaluate_chunk: evaluates every model's translation for
one chunk; empty or whitespace-only translations are skipped (logged) and
produce no ChunkEvaluation. -/
def evaluate_chunk (env : Env) (chunk_id source_text : String)
    (model_translations : List (String × String)) (reference_translations : List String)
    (include_per_reference : Bool := true) : List ChunkEvaluation :=
  model_translations.filterMap fun mt =>
    if isBlank mt.2 then none
    else some
      { chunk_id := chunk_id
        model_name := mt.1
        scores := evaluate_single env mt.2 reference_translations (some source_text)
        per_reference_scores :=
          if include_per_reference then
            perRefTable env mt.2 reference_translations (some source_text)
          else [] }

/-- A parsed source chunk with its Greek text and reference translations
(the ParsedChunk shape consumed by Evaluator.evaluate_all). -/
structure ParsedChunk where
  chunk_id : String
  greek_text : String
  reference_translations : List String

/-- A translation record as accepted (duck-typed) by Evaluator.evaluate_all:
an object with a translation attribute, a mapping, or any other object,
carried with its str() representation. -/
inductive TransRecord where
  | withTranslationAttr (translation : String)
  | mapping (entries : List (String × String))
  | plain (str_repr : String)

/-- Python's str() of a string-to-string dict, used when a mapping record
lacks the translation key. -/
def dictStr (entries : List (String × String)) : String :=
  "\x7b" ++
    String.intercalate ", "
      (entries.map (fun p => "'" ++ p.1 ++ "': '" ++ p.2 ++ "'")) ++
  "\x7d"

/-- The hypothesis text Evaluator.evaluate_all extracts from a translation
record: the translation attribute if present, else the translation key of a
mapping, else str(record). -/
def recordHyp : TransRecord → String
  | .withTranslationAttr t => t
  | .mapping entries =>
    match entries.find? (fun p => p.1 = "translation") with
    | some p => p.2
    | none => dictStr entries
  | .plain s => s

/-- Embeds Evaluator.evaluate_all: for each parsed chunk with translations,
build the model-to-hypothesis map via recordHyp and evaluate the chunk
(include_per_reference takes its default, true).  Chunks with no
translations entry are skipped with a warning. -/
def evaluate_all (env : Env) (parsed_chunks : List ParsedChunk)
    (translations : List (String × List (String × TransRecord))) : List ChunkEvaluation :=
  parsed_chunks.flatMap fun chunk =>
    match translations.find? (fun p => p.1 = chunk.chunk_id) with
    | none => []
    | some entry =>
      evaluate_chunk env chunk.chunk_id chunk.greek_text
        (entry.2.map (fun p => (p.1, recordHyp p.2)))
        chunk.reference_translations

/-- np.mean of a list of scores (the grouped lists this is applied to are
never empty; np.mean would raise there). -/
def listMean (l : List Rat) : Rat := l.sum / (l.length : Rat)

/-- The population variance (ddof = 0).  np.std reports its square root;
since the square root is injective on the nonnegative reals, two std values
are equal exactly when these variances are, so the summary carries the
variance as the rational counterpart of the std field. -/
def listVar (l : List Rat) : Rat :=
  (l.map (fun x => (x - listMean l) ^ 2)).sum / (l.length : Rat)

/-- np.min of a nonempty list (applied only to nonempty lists). -/
def listMin : List Rat → Rat
  | [] => 0
  | x :: xs => xs.foldl min x

/-- np.max of a nonempty list (applied only to nonempty lists). -/
def listMax : List Rat → Rat
  | [] => 0
  | x :: xs => xs.foldl max x

/-- The per-(model, metric) descriptive statistics of the summary. -/
structure Stats where
  mean : Rat
  var : Rat
  min : Rat
  max : Rat
  count : Nat
deriving DecidableEq

/-- Builds the statistics record for one score list. -/
def mkStats (l : List Rat) : Stats :=
  { mean := listMean l, var := listVar l, min := listMin l, max := listMax l,
    count := l.length }

/-- The mean/std/count record of the per-reference breakdown. -/
structure RefStats where
  mean : Rat
  var : Rat
  count : Nat
deriving DecidableEq

/-- Insertion-ordered dictionary update, as a Python dict: if the key is
present its value is replaced in place, otherwise the pair is appended. -/
def dmod {α : Type} (k : String) (f : Option α → α) :
    List (String × α) → List (String × α)
  | [] => [(k, f none)]
  | p :: rest => if p.1 = k then (k, f (some p.2)) :: rest else p :: dmod k f rest

/-- Python dict assignment d[k] = v. -/
def dictSet {α : Type} (k : String) (v : α) : List (String × α) → List (String × α)
  | [] => [(k, v)]
  | p :: rest => if p.1 = k then (k, v) :: rest else p :: dictSet k v rest

/-- Python dict lookup with a default. -/
def dget {α : Type} (al : List (String × α)) (k : String) (d : α) : α :=
  match al.find? (fun p => p.1 = k) with
  | some p => p.2
  | none => d

/-- One step of the scores_by_model_metric grouping:
scores_by_model_metric[model][metric].append(score). -/
def addScore (m met : String) (v : Rat)
    (acc : List (String × List (String × List Rat))) :
    List (String × List (String × List Rat)) :=
  dmod m (fun inner => dmod met (fun xs => (xs.getD []) ++ [v]) (inner.getD [])) acc

/-- Folds one ChunkEvaluation's scores into the grouping. -/
def addEval (acc : List (String × List (String × List Rat)))
    (ev : ChunkEvaluation) : List (String × List (String × List Rat)) :=
  ev.scores.foldl (fun acc2 s => addScore ev.model_name s.metric_name s.score acc2) acc

/-- The scores_by_model_metric grouping of Evaluator.aggregate_results:
a defaultdict of defaultdicts of lists, filled in input order. -/
def groupScores (evaluations : List ChunkEvaluation) :
    List (String × List (String × List Rat)) :=
  evaluations.foldl addEval []

/-- The per_ref_by_model_metric grouping: model → metric → ref_id → scores. -/
def groupPerRef (evaluations : List ChunkEvaluation) :
    List (String × List (String × List (String × List Rat))) :=
  evaluations.foldl
    (fun acc ev =>
      ev.per_reference_scores.foldl
        (fun acc2 refRow =>
          refRow.2.foldl
            (fun acc3 ms =>
              dmod ev.model_name
                (fun inner =>
                  dmod ms.1
                    (fun byRef =>
                      dmod refRow.1 (fun xs => (xs.getD []) ++ [ms.2]) (byRef.getD []))
                    (inner.getD []))
                acc3)
            acc2)
        acc)
    []

/-- One model's row of by_metric filling:
by_metric[metric][model] = mean(scores), for each of the model's metrics. -/
def bmStep (acc : List (String × List (String × Rat)))
    (p : String × List (String × List Rat)) : List (String × List (String × Rat)) :=
  p.2.foldl
    (fun acc2 q => dmod q.1 (fun ms => dictSet p.1 (listMean q.2) (ms.getD [])) acc2)
    acc

/-- The by_metric table of the summary: metric → model → mean score, filled
model-outer/metric-inner as in the source. -/
def buildByMetric (g : List (String × List (String × List Rat))) :
    List (String × List (String × Rat)) :=
  g.foldl bmStep []

/-- The all_model_scores average of one model's grouped rows: every score of
the model, flattened across its metrics in grouping order, averaged (0 if
the model somehow has no scores, as in the source's guard). -/
def modelAvgVal (inner : List (String × List Rat)) : Rat :=
  let all_model_scores := (inner.map (fun q => q.2)).flatten
  if all_model_scores = [] then 0 else listMean all_model_scores

/-- The model_averages table: model → mean of all its flattened scores. -/
def modelAveragesOf (g : List (String × List (String × List Rat))) :
    List (String × Rat) :=
  g.map (fun p => (p.1, modelAvgVal p.2))

/-- Python max(items, key=lambda x: x[1]): the first item with the largest
second component; None (none) on an empty list, where the source guards
with an if. -/
def pyMaxBySnd (l : List (String × Rat)) : Option (String × Rat) :=
  match l with
  | [] => none
  | x :: xs => some (xs.foldl (fun b y => if y.2 > b.2 then y else b) x)

/-- The descending-by-score ordering used for overall_rankings. -/
def rankLE (a b : String × Rat) : Prop := b.2 ≤ a.2

instance : DecidableRel rankLE := fun a b => inferInstanceAs (Decidable (b.2 ≤ a.2))

/-- The summary dictionary produced by Evaluator.aggregate_results.  In the
source, best_model lives inside by_metric under the reserved key
'best_model' (models literally named 'best_model' are filtered out before
the max is taken); it is carried here as its own field with the same
filtering. -/
structure Summary where
  methodology : List (String × String)
  by_model : List (String × List (String × Stats))
  by_metric : List (String × List (String × Rat))
  best_model : List (String × (String × Rat))
  by_reference : List (String × List (String × List (String × RefStats)))
  overall_rankings : List (String × Rat)
  detailed_scores : List ChunkEvaluation
deriving DecidableEq

/-- Embeds Evaluator.aggregate_results.  Python's sorted(..., key=score,
reverse=True) is a stable descending sort; a stable sort's output is
uniquely determined by the input order and the total preorder, so the
(stable) insertion sort below computes exactly the same ranking list. -/
def aggregate_results (evaluations : List ChunkEvaluation) : Summary :=
  let g := groupScores evaluations
  let by_model := g.map (fun p => (p.1, p.2.map (fun q => (q.1, mkStats q.2))))
  let model_averages := modelAveragesOf g
  let by_metric := buildByMetric g
  { methodology :=
      [("bleu-4", "multi-reference (n-grams matched against any reference)"),
       ("chrf++", "multi-reference (native support, includes word bigrams)"),
       ("meteor", "multi-reference (native support, includes synonyms/stems)"),
       ("rouge-l", "max across references"),
       ("bertscore", "max across references"),
       ("comet", "max across references"),
       ("bleurt", "max across references")]
    by_model := by_model
    by_metric := by_metric
    best_model := by_metric.filterMap (fun p =>
      (pyMaxBySnd (p.2.filter (fun q => q.1 ≠ "best_model"))).map (fun b => (p.1, b)))
    by_reference := (groupPerRef evaluations).map (fun p =>
      (p.1, p.2.map (fun q =>
        (q.1, q.2.map (fun rr =>
          (rr.1, { mean := listMean rr.2, var := listVar rr.2,
                   count := rr.2.length : RefStats }))))))
    overall_rankings := List.insertionSort rankLE model_averages
    detailed_scores := evaluations }

/-- Lookup in the details dictionary of a score. -/
def dlookup (s : EvaluationScore) (k : String) : Option DVal :=
  (s.details.find? (fun p => p.1 = k)).map (fun p => p.2)

/-- The value tracked by a best-so-far loop, read back through fetch
(0 is a dummy for the failure case, which the lemmas exclude). -/
def fetchVal {α : Type} (fetch : String → Option α) (val : α → Rat) (r : String) : Rat :=
  match fetch r with
  | some a => val a
  | none => 0

/-- The per-reference ROUGE-L fmeasure of the abstract scorer. -/
def rougeF (env : Env) (hypothesis r : String) : Rat :=
  fetchVal (fun r => env.rouge r hypothesis) (fun t => t.1) r

/-- The per-reference BERTScore F1 of the abstract scorer. -/
def bertF1 (env : Env) (hypothesis r : String) : Rat :=
  fetchVal (fun r => env.bert hypothesis r) (fun t => t.2.2) r

/-- The per-reference BLEURT score of the abstract scorer. -/
def bleurtV (env : Env) (hypothesis r : String) : Rat :=
  fetchVal (fun r => env.bleurt r hypothesis) (fun s => s) r

/-- The per-reference COMET score of the abstract scorer. -/
def cometV (env : Env) (source hypothesis r : String) : Rat :=
  fetchVal (fun r => env.comet source hypothesis r) (fun s => s) r

/-- All scores a model received for one metric, in input order (the
reference semantics of the scores_by_model_metric cell). -/
def modelScores (evaluations : List ChunkEvaluation) (m met : String) : List Rat :=
  evaluations.flatMap fun ev =>
    if ev.model_name = m then
      ev.scores.filterMap (fun s => if s.metric_name = met then some s.score else none)
    else []

/-- All scores a model received across all metrics, in input order. -/
def allModelScores (evaluations : List ChunkEvaluation) (m : String) : List Rat :=
  evaluations.flatMap fun ev =>
    if ev.model_name = m then ev.scores.map (fun s => s.score) else []

/-- The metric-name/score pairs a model received, in input order. -/
def modelPairs (evaluations : List ChunkEvaluation) (m : String) : List (String × Rat) :=
  evaluations.flatMap fun ev =>
    if ev.model_name = m then ev.scores.map (fun s => (s.metric_name, s.score)) else []

/-- The flattened, unweighted mean of all of a model's scores across all
metrics and chunks (0 for a model with no scores, as in the source). -/
def flatMean (evaluations : List ChunkEvaluation) (m : String) : Rat :=
  if allModelScores evaluations m = [] then 0
  else listMean (allModelScores evaluations m)

/-- The model names occurring in an evaluation collection. -/
def modelsOf (evaluations : List ChunkEvaluation) : List String :=
  (evaluations.map (fun ev => ev.model_name)).dedup

/-- The metric names occurring in an evaluation collection. -/
def metricsOf (evaluations : List ChunkEvaluation) : List String :=
  (evaluations.flatMap (fun ev => ev.scores.map (fun s => s.metric_name))).dedup

/-- The by_model statistics cell of a summary for one (model, metric). -/
def statFor (s : Summary) (m met : String) : Option Stats :=
  (s.by_model.find? (fun p => p.1 = m)).bind fun p =>
    (p.2.find? (fun q => q.1 = met)).map (fun q => q.2)

/-- The best model recorded for one metric: the first model with the highest
mean, computed over the metric's by_metric row exactly as the source does
(with the reserved key filtered out). -/
def bestFor (s : Summary) (met : String) : Option (String × Rat) :=
  pyMaxBySnd ((dget s.by_metric met []).filter (fun q => q.1 ≠ "best_model"))

/-- A concrete, fully functional environment (all seven metrics active,
every scorer total) used to instantiate the general theorems. -/
def demoEnv : Env :=
  { handlers := ["bleu", "chrf", "meteor", "rouge", "bertscore", "bleurt", "comet"]
    bleuRaw := fun _ _ => some (50, 1)
    chrfRaw := fun _ _ => some 40
    meteor := fun _ _ => some 1
    rouge := fun r _ => some (if r = "r1" then (0, 1, 1) else (1, 1, 0))
    bert := fun _ r => some (if r = "r1" then (4, 4, 4) else (3, 3, 3))
    bleurt := fun r _ => some (if r = "r1" then -2 else 1)
    comet := fun _ _ r => some (if r = "r1" then 7 else -2) }

/-- Two chunk evaluations for distinct models with the very same score:
a tie in the overall averages. -/
def evTieA : ChunkEvaluation :=
  { chunk_id := "c1", model_name := "alpha",
    scores := [{ metric_name := "M", score := 1/2, details := [] }],
    per_reference_scores := [] }

/-- See evTieA. -/
def evTieB : ChunkEvaluation :=
  { chunk_id := "c1", model_name := "beta",
    scores := [{ metric_name := "M", score := 1/2, details := [] }],
    per_reference_scores := [] }

/-- A chunk evaluation with a distinctive mean, for the permutation
invariance witness. -/
def evW1 : ChunkEvaluation :=
  { chunk_id := "c1", model_name := "alpha",
    scores := [{ metric_name := "M", score := 1/2, details := [] }],
    per_reference_scores := [] }

/-- See evW1. -/
def evW2 : ChunkEvaluation :=
  { chunk_id := "c1", model_name := "beta",
    scores := [{ metric_name := "M", score := 3/4, details := [] }],
    per_reference_scores := [] }

/-- The environment with one metric's scorer stubbed to always raise
(modelled: always return none), leaving everything else untouched. -/
def failAt (env : Env) (key : String) : Env :=
  if key = "bleu" then { env with bleuRaw := fun _ _ => none }
  else if key = "chrf" then { env with chrfRaw := fun _ _ => none }
  else if key = "meteor" then { env with meteor := fun _ _ => none }
  else if key = "rouge" then { env with rouge := fun _ _ => none }
  else if key = "bertscore" then { env with bert := fun _ _ => none }
  else if key = "bleurt" then { env with bleurt := fun _ _ => none }
  else if key = "comet" then { env with comet := fun _ _ _ => none }
  else env

/-- The reported metric name belonging to a handler key. -/
def metricNameOf (key : String) : String :=
  if key = "bleu" then "BLEU-4"
  else if key = "chrf" then "chrF++"
  else if key = "meteor" then "METEOR"
  else if key = "rouge" then "ROUGE-L"
  else if key = "bertscore" then "BERTScore"
  else if key = "bleurt" then "BLEURT"
  else if key = "comet" then "COMET"
  else ""

/-- The grouped score cell for one (model, metric), empty when absent. -/
def gLookup (g : List (String × List (String × List Rat))) (m met : String) : List Rat :=
  dget (dget g m []) met []

/-- An association list with pairwise distinct keys (every Python dict). -/
def NodupKeys {α : Type} (al : List (String × α)) : Prop :=
  (al.map Prod.fst).Nodup

/-- Well-formedness of the scores_by_model_metric grouping: distinct model
keys, distinct metric keys per model, no empty rows and no empty cells. -/
def GSWF (g : List (String × List (String × List Rat))) : Prop :=
  NodupKeys g ∧ (∀ p ∈ g, NodupKeys p.2) ∧ (∀ p ∈ g, p.2 ≠ []) ∧
    ∀ p ∈ g, ∀ q ∈ p.2, q.2 ≠ []

instance : IsTotal (String × Rat) rankLE := ⟨fun a b => le_total b.2 a.2⟩

instance : IsTrans (String × Rat) rankLE := ⟨fun _ _ _ hab hbc => le_trans hbc hab⟩

theorem evaluate_bleu_name (env : Env) (h : String) (refs : List String) :
    ∀ s ∈ evaluate_bleu env h refs, s.metric_name = "BLEU-4" := by
  intro s hs
  unfold evaluate_bleu at hs
  split at hs
  · split at hs <;> simp_all
  · simp at hs

theorem evaluate_chrf_name (env : Env) (h : String) (refs : List String) :
    ∀ s ∈ evaluate_chrf env h refs, s.metric_name = "chrF++" := by
  intro s hs
  unfold evaluate_chrf at hs
  split at hs
  · split at hs <;> simp_all
  · simp at hs

theorem evaluate_meteor_name (env : Env) (h : String) (refs : List String) :
    ∀ s ∈ evaluate_meteor env h refs, s.metric_name = "METEOR" := by
  intro s hs
  unfold evaluate_meteor at hs
  split at hs
  · split at hs <;> simp_all
  · simp at hs

theorem evaluate_rouge_name (env : Env) (h : String) (refs : List String) :
    ∀ s ∈ evaluate_rouge env h refs, s.metric_name = "ROUGE-L" := by
  intro s hs
  unfold evaluate_rouge at hs
  split at hs
  · split at hs <;> simp_all
  · simp at hs

theorem evaluate_bertscore_name (env : Env) (h : String) (refs : List String) :
    ∀ s ∈ evaluate_bertscore env h refs, s.metric_name = "BERTScore" := by
  intro s hs
  unfold evaluate_bertscore at hs
  split at hs
  · split at hs <;> simp_all
  · simp at hs

theorem evaluate_bleurt_name (env : Env) (h : String) (refs : List String) :
    ∀ s ∈ evaluate_bleurt env h refs, s.metric_name = "BLEURT" := by
  intro s hs
  unfold evaluate_bleurt at hs
  split at hs
  · split at hs <;> simp_all
  · simp at hs

theorem evaluate_comet_name (env : Env) (h src : String) (refs : List String) :
    ∀ s ∈ evaluate_comet env h refs src, s.metric_name = "COMET" := by
  intro s hs
  unfold evaluate_comet at hs
  split at hs
  · split at hs <;> simp_all
  · simp at hs

/-- Claim C2: for a hypothesis with exactly one reference, the
multi-reference path (evaluate_single on the one-element list) and the
per-reference path (evaluate_per_reference) produce numerically identical
scores for every active metric: the per-reference table is exactly one row,
ref1, holding the very same score list. -/
theorem claim2_single_reference_equivalence (env : Env) (h r : String)
    (source : Option String) :
    evaluate_per_reference env h [r] source = [("ref1", evaluate_single env h [r] source)] := by
  rfl

/-- Claim C8: for every chunk, model and reference set, requesting the
per-reference breakdown changes only the per_reference_scores field: the
true-flag output with that field cleared is exactly the false-flag output,
so chunk_id, model_name and the primary multi-reference scores coincide. -/
theorem claim8_per_reference_frame (env : Env) (cid srcT : String)
    (mts : List (String × String)) (refs : List String) :
    (evaluate_chunk env cid srcT mts refs true).map
        (fun ev => { ev with per_reference_scores := [] }) =
      evaluate_chunk env cid srcT mts refs false := by
  induction mts with
  | nil => rfl
  | cons mt rest ih =>
    unfold evaluate_chunk at *
    by_cases hc : isBlank mt.2
    · simpa [List.filterMap_cons, hc] using ih
    · simpa [List.filterMap_cons, hc] using ih

/-- Claim C9 (counterexample): in a fully functional environment with COMET
among the active metrics, evaluating without a source text yields no COMET
score, no error of any kind, and leaves every other metric's score exactly
as it would be with a source: the code silently proceeds without the
metric instead of signalling a configuration error. -/
theorem claim9_counterexample :
    ("comet" ∈ demoEnv.handlers ∧ demoEnv.comet "s" "h" "r1" ≠ none) ∧
    (evaluate_single demoEnv "h" ["r1"] none).filter
        (fun s => s.metric_name = "COMET") = [] ∧
    (evaluate_single demoEnv "h" ["r1"] (some "s")).filter
        (fun s => s.metric_name = "COMET") ≠ [] ∧
    (evaluate_single demoEnv "h" ["r1"] none).filter
        (fun s => s.metric_name ≠ "COMET") =
      (evaluate_single demoEnv "h" ["r1"] (some "s")).filter
        (fun s => s.metric_name ≠ "COMET") := by
  exact ⟨⟨by decide, by simp [demoEnv]⟩, by rfl, by decide, by rfl⟩

/-- Claim C9 (amended): when no source text is supplied (or it is empty),
evaluate_single silently omits COMET from the result list — the other six
metric families are evaluated exactly as usual and no COMET-named score
appears — rather than signalling a configuration error. -/
theorem claim9_amended_silent_comet_skip (env : Env) (h : String) (refs : List String) :
    (evaluate_single env h refs none =
       evaluate_bleu env h refs ++ evaluate_chrf env h refs ++
       evaluate_meteor env h refs ++ evaluate_rouge env h refs ++
       evaluate_bertscore env h refs ++ evaluate_bleurt env h refs ∧
     evaluate_single env h refs (some "") = evaluate_single env h refs none) ∧
    ∀ s ∈ evaluate_single env h refs none, s.metric_name ≠ "COMET" := by
  refine ⟨⟨by simp [evaluate_single, cometPart], by simp [evaluate_single, cometPart]⟩, ?_⟩
  intro s hs
  unfold evaluate_single at hs
  simp only [List.mem_append] at hs
  rcases hs with ((((((hb | hc) | hm) | hr) | hbs) | hbl) | hco)
  · rw [evaluate_bleu_name env h refs s hb]; decide
  · rw [evaluate_chrf_name env h refs s hc]; decide
  · rw [evaluate_meteor_name env h refs s hm]; decide
  · rw [evaluate_rouge_name env h refs s hr]; decide
  · rw [evaluate_bertscore_name env h refs s hbs]; decide
  · rw [evaluate_bleurt_name env h refs s hbl]; decide
  · simp [cometPart] at hco

theorem bestGo_fail {α : Type} (val : α → Rat) (rs : List String) (k : Nat) :
    bestGo (fun _ => (none : Option α)) val rs k none = none := by
  cases rs <;> simp [bestGo]

theorem filter_ne_of_names (l : List EvaluationScore) (n n' : String)
    (hl : ∀ s ∈ l, s.metric_name = n) (hne : n ≠ n') :
    l.filter (fun s => s.metric_name ≠ n') = l := by
  rw [List.filter_eq_self]
  intro s hs
  simp [hl s hs, hne]

theorem filter_eq_nil_of_names (l : List EvaluationScore) (n n' : String)
    (hl : ∀ s ∈ l, s.metric_name = n) (hne : n ≠ n') :
    l.filter (fun s => s.metric_name = n') = [] := by
  rw [List.filter_eq_nil_iff]
  intro s hs
  simp [hl s hs, hne]

theorem bestGo_fail_of {α : Type} (fetch : String → Option α) (val : α → Rat)
    (hf : ∀ r, fetch r = none) (rs : List String) (k : Nat) :
    bestGo fetch val rs k none = none := by
  cases rs <;> simp [bestGo, hf]

theorem bertGo_fail_of (fetch : String → Option (Rat × Rat × Rat))
    (hf : ∀ r, fetch r = none) (rs : List String) (k : Nat) (f : Rat) :
    bertGo fetch rs k f none = some none ∨ bertGo fetch rs k f none = none := by
  cases rs
  · exact Or.inl rfl
  · exact Or.inr (by simp [bertGo, hf])

theorem evaluate_rouge_fail (env : Env) (h : String) (refs : List String)
    (henv : ∀ r h', env.rouge r h' = none) :
    evaluate_rouge env h refs = [] := by
  unfold evaluate_rouge
  split
  · rw [bestGo_fail_of _ _ (fun r => henv r h)]
  · rfl

theorem evaluate_bertscore_fail (env : Env) (h : String) (refs : List String)
    (henv : ∀ h' r, env.bert h' r = none) :
    evaluate_bertscore env h refs = [] := by
  unfold evaluate_bertscore
  split
  · rcases bertGo_fail_of (fun r => env.bert h r) (fun r => henv h r) refs 0 (-1) with
      hc | hc <;> rw [hc]
  · rfl

theorem evaluate_bleurt_fail (env : Env) (h : String) (refs : List String)
    (henv : ∀ r h', env.bleurt r h' = none) :
    evaluate_bleurt env h refs = [] := by
  unfold evaluate_bleurt
  split
  · rw [bestGo_fail_of _ _ (fun r => henv r h)]
  · rfl

theorem evaluate_comet_fail (env : Env) (h src : String) (refs : List String)
    (henv : ∀ a b c, env.comet a b c = none) :
    evaluate_comet env h refs src = [] := by
  unfold evaluate_comet
  split
  · rw [bestGo_fail_of _ _ (fun r => henv src h r)]
  · rfl

theorem cometPart_name (env : Env) (h : String) (refs : List String) (src : Option String) :
    ∀ s ∈ cometPart env h refs src, s.metric_name = "COMET" := by
  intro s hs
  rcases src with _ | t
  · simp [cometPart] at hs
  · by_cases ht : t = ""
    · simp [cometPart, ht] at hs
    · simp only [cometPart] at hs
      rw [if_neg ht] at hs
      exact evaluate_comet_name env h t refs s hs

theorem filter_ne_self_nil_of_names (l : List EvaluationScore) (n : String)
    (hl : ∀ s ∈ l, s.metric_name = n) :
    l.filter (fun s => s.metric_name ≠ n) = [] := by
  rw [List.filter_eq_nil_iff]
  intro s hs
  simp [hl s hs]

theorem evaluate_single_fail_rouge (env : Env) (h : String) (refs : List String)
    (src : Option String) :
    evaluate_single (failAt env "rouge") h refs src =
      (evaluate_single env h refs src).filter (fun s => s.metric_name ≠ "ROUGE-L") := by
  have e1 : evaluate_bleu (failAt env "rouge") h refs = evaluate_bleu env h refs := rfl
  have e2 : evaluate_chrf (failAt env "rouge") h refs = evaluate_chrf env h refs := rfl
  have e3 : evaluate_meteor (failAt env "rouge") h refs = evaluate_meteor env h refs := rfl
  have e5 : evaluate_bertscore (failAt env "rouge") h refs = evaluate_bertscore env h refs := rfl
  have e6 : evaluate_bleurt (failAt env "rouge") h refs = evaluate_bleurt env h refs := rfl
  have e7 : cometPart (failAt env "rouge") h refs src = cometPart env h refs src := rfl
  have e4 : evaluate_rouge (failAt env "rouge") h refs = [] :=
    evaluate_rouge_fail _ h refs (fun r h' => by simp [failAt])
  unfold evaluate_single
  rw [e1, e2, e3, e4, e5, e6, e7]
  rw [List.filter_append, List.filter_append, List.filter_append, List.filter_append,
      List.filter_append, List.filter_append]
  rw [filter_ne_of_names _ "BLEU-4" "ROUGE-L" (evaluate_bleu_name env h refs) (by decide),
      filter_ne_of_names _ "chrF++" "ROUGE-L" (evaluate_chrf_name env h refs) (by decide),
      filter_ne_of_names _ "METEOR" "ROUGE-L" (evaluate_meteor_name env h refs) (by decide),
      filter_ne_of_names _ "BERTScore" "ROUGE-L" (evaluate_bertscore_name env h refs) (by decide),
      filter_ne_of_names _ "BLEURT" "ROUGE-L" (evaluate_bleurt_name env h refs) (by decide),
      filter_ne_of_names _ "COMET" "ROUGE-L" (cometPart_name env h refs src) (by decide),
      filter_ne_self_nil_of_names _ "ROUGE-L" (evaluate_rouge_name env h refs)]


theorem evaluate_single_fail_bleu (env : Env) (h : String) (refs : List String)
    (src : Option String) :
    evaluate_single (failAt env "bleu") h refs src =
      (evaluate_single env h refs src).filter (fun s => s.metric_name ≠ "BLEU-4") := by
  have e1 : evaluate_bleu (failAt env "bleu") h refs = [] := by
    unfold evaluate_bleu
    split
    · simp [failAt]
    · rfl
  have e2 : evaluate_chrf (failAt env "bleu") h refs = evaluate_chrf env h refs := rfl
  have e3 : evaluate_meteor (failAt env "bleu") h refs = evaluate_meteor env h refs := rfl
  have e4 : evaluate_rouge (failAt env "bleu") h refs = evaluate_rouge env h refs := rfl
  have e5 : evaluate_bertscore (failAt env "bleu") h refs = evaluate_bertscore env h refs := rfl
  have e6 : evaluate_bleurt (failAt env "bleu") h refs = evaluate_bleurt env h refs := rfl
  have e7 : cometPart (failAt env "bleu") h refs src = cometPart env h refs src := rfl
  unfold evaluate_single
  rw [e1, e2, e3, e4, e5, e6, e7]
  rw [List.filter_append, List.filter_append, List.filter_append, List.filter_append,
      List.filter_append, List.filter_append]
  rw [filter_ne_self_nil_of_names _ "BLEU-4" (evaluate_bleu_name env h refs),
      filter_ne_of_names _ "chrF++" "BLEU-4" (evaluate_chrf_name env h refs) (by decide),
      filter_ne_of_names _ "METEOR" "BLEU-4" (evaluate_meteor_name env h refs) (by decide),
      filter_ne_of_names _ "ROUGE-L" "BLEU-4" (evaluate_rouge_name env h refs) (by decide),
      filter_ne_of_names _ "BERTScore" "BLEU-4" (evaluate_bertscore_name env h refs) (by decide),
      filter_ne_of_names _ "BLEURT" "BLEU-4" (evaluate_bleurt_name env h refs) (by decide),
      filter_ne_of_names _ "COMET" "BLEU-4" (cometPart_name env h refs src) (by decide)]

theorem evaluate_single_fail_chrf (env : Env) (h : String) (refs : List String)
    (src : Option String) :
    evaluate_single (failAt env "chrf") h refs src =
      (evaluate_single env h refs src).filter (fun s => s.metric_name ≠ "chrF++") := by
  have e1 : evaluate_bleu (failAt env "chrf") h refs = evaluate_bleu env h refs := rfl
  have e2 : evaluate_chrf (failAt env "chrf") h refs = [] := by
    unfold evaluate_chrf
    split
    · simp [failAt]
    · rfl
  have e3 : evaluate_meteor (failAt env "chrf") h refs = evaluate_meteor env h refs := rfl
  have e4 : evaluate_rouge (failAt env "chrf") h refs = evaluate_rouge env h refs := rfl
  have e5 : evaluate_bertscore (failAt env "chrf") h refs = evaluate_bertscore env h refs := rfl
  have e6 : evaluate_bleurt (failAt env "chrf") h refs = evaluate_bleurt env h refs := rfl
  have e7 : cometPart (failAt env "chrf") h refs src = cometPart env h refs src := rfl
  unfold evaluate_single
  rw [e1, e2, e3, e4, e5, e6, e7]
  rw [List.filter_append, List.filter_append, List.filter_append, List.filter_append,
      List.filter_append, List.filter_append]
  rw [filter_ne_of_names _ "BLEU-4" "chrF++" (evaluate_bleu_name env h refs) (by decide),
      filter_ne_self_nil_of_names _ "chrF++" (evaluate_chrf_name env h refs),
      filter_ne_of_names _ "METEOR" "chrF++" (evaluate_meteor_name env h refs) (by decide),
      filter_ne_of_names _ "ROUGE-L" "chrF++" (evaluate_rouge_name env h refs) (by decide),
      filter_ne_of_names _ "BERTScore" "chrF++" (evaluate_bertscore_name env h refs) (by decide),
      filter_ne_of_names _ "BLEURT" "chrF++" (evaluate_bleurt_name env h refs) (by decide),
      filter_ne_of_names _ "COMET" "chrF++" (cometPart_name env h refs src) (by decide)]

theorem evaluate_single_fail_meteor (env : Env) (h : String) (refs : List String)
    (src : Option String) :
    evaluate_single (failAt env "meteor") h refs src =
      (evaluate_single env h refs src).filter (fun s => s.metric_name ≠ "METEOR") := by
  have e1 : evaluate_bleu (failAt env "meteor") h refs = evaluate_bleu env h refs := rfl
  have e2 : evaluate_chrf (failAt env "meteor") h refs = evaluate_chrf env h refs := rfl
  have e3 : evaluate_meteor (failAt env "meteor") h refs = [] := by
    unfold evaluate_meteor
    split
    · simp [failAt]
    · rfl
  have e4 : evaluate_rouge (failAt env "meteor") h refs = evaluate_rouge env h refs := rfl
  have e5 : evaluate_bertscore (failAt env "meteor") h refs = evaluate_bertscore env h refs := rfl
  have e6 : evaluate_bleurt (failAt env "meteor") h refs = evaluate_bleurt env h refs := rfl
  have e7 : cometPart (failAt env "meteor") h refs src = cometPart env h refs src := rfl
  unfold evaluate_single
  rw [e1, e2, e3, e4, e5, e6, e7]
  rw [List.filter_append, List.filter_append, List.filter_append, List.filter_append,
      List.filter_append, List.filter_append]
  rw [filter_ne_of_names _ "BLEU-4" "METEOR" (evaluate_bleu_name env h refs) (by decide),
      filter_ne_of_names _ "chrF++" "METEOR" (evaluate_chrf_name env h refs) (by decide),
      filter_ne_self_nil_of_names _ "METEOR" (evaluate_meteor_name env h refs),
      filter_ne_of_names _ "ROUGE-L" "METEOR" (evaluate_rouge_name env h refs) (by decide),
      filter_ne_of_names _ "BERTScore" "METEOR" (evaluate_bertscore_name env h refs) (by decide),
      filter_ne_of_names _ "BLEURT" "METEOR" (evaluate_bleurt_name env h refs) (by decide),
      filter_ne_of_names _ "COMET" "METEOR" (cometPart_name env h refs src) (by decide)]

theorem evaluate_single_fail_bertscore (env : Env) (h : String) (refs : List String)
    (src : Option String) :
    evaluate_single (failAt env "bertscore") h refs src =
      (evaluate_single env h refs src).filter (fun s => s.metric_name ≠ "BERTScore") := by
  have e1 : evaluate_bleu (failAt env "bertscore") h refs = evaluate_bleu env h refs := rfl
  have e2 : evaluate_chrf (failAt env "bertscore") h refs = evaluate_chrf env h refs := rfl
  have e3 : evaluate_meteor (failAt env "bertscore") h refs = evaluate_meteor env h refs := rfl
  have e4 : evaluate_rouge (failAt env "bertscore") h refs = evaluate_rouge env h refs := rfl
  have e5 : evaluate_bertscore (failAt env "bertscore") h refs = [] :=
    evaluate_bertscore_fail _ h refs (fun h' r => by simp [failAt])
  have e6 : evaluate_bleurt (failAt env "bertscore") h refs = evaluate_bleurt env h refs := rfl
  have e7 : cometPart (failAt env "bertscore") h refs src = cometPart env h refs src := rfl
  unfold evaluate_single
  rw [e1, e2, e3, e4, e5, e6, e7]
  rw [List.filter_append, List.filter_append, List.filter_append, List.filter_append,
      List.filter_append, List.filter_append]
  rw [filter_ne_of_names _ "BLEU-4" "BERTScore" (evaluate_bleu_name env h refs) (by decide),
      filter_ne_of_names _ "chrF++" "BERTScore" (evaluate_chrf_name env h refs) (by decide),
      filter_ne_of_names _ "METEOR" "BERTScore" (evaluate_meteor_name env h refs) (by decide),
      filter_ne_of_names _ "ROUGE-L" "BERTScore" (evaluate_rouge_name env h refs) (by decide),
      filter_ne_self_nil_of_names _ "BERTScore" (evaluate_bertscore_name env h refs),
      filter_ne_of_names _ "BLEURT" "BERTScore" (evaluate_bleurt_name env h refs) (by decide),
      filter_ne_of_names _ "COMET" "BERTScore" (cometPart_name env h refs src) (by decide)]

theorem evaluate_single_fail_bleurt (env : Env) (h : String) (refs : List String)
    (src : Option String) :
    evaluate_single (failAt env "bleurt") h refs src =
      (evaluate_single env h refs src).filter (fun s => s.metric_name ≠ "BLEURT") := by
  have e1 : evaluate_bleu (failAt env "bleurt") h refs = evaluate_bleu env h refs := rfl
  have e2 : evaluate_chrf (failAt env "bleurt") h refs = evaluate_chrf env h refs := rfl
  have e3 : evaluate_meteor (failAt env "bleurt") h refs = evaluate_meteor env h refs := rfl
  have e4 : evaluate_rouge (failAt env "bleurt") h refs = evaluate_rouge env h refs := rfl
  have e5 : evaluate_bertscore (failAt env "bleurt") h refs = evaluate_bertscore env h refs := rfl
  have e6 : evaluate_bleurt (failAt env "bleurt") h refs = [] :=
    evaluate_bleurt_fail _ h refs (fun r h' => by simp [failAt])
  have e7 : cometPart (failAt env "bleurt") h refs src = cometPart env h refs src := rfl
  unfold evaluate_single
  rw [e1, e2, e3, e4, e5, e6, e7]
  rw [List.filter_append, List.filter_append, List.filter_append, List.filter_append,
      List.filter_append, List.filter_append]
  rw [filter_ne_of_names _ "BLEU-4" "BLEURT" (evaluate_bleu_name env h refs) (by decide),
      filter_ne_of_names _ "chrF++" "BLEURT" (evaluate_chrf_name env h refs) (by decide),
      filter_ne_of_names _ "METEOR" "BLEURT" (evaluate_meteor_name env h refs) (by decide),
      filter_ne_of_names _ "ROUGE-L" "BLEURT" (evaluate_rouge_name env h refs) (by decide),
      filter_ne_of_names _ "BERTScore" "BLEURT" (evaluate_bertscore_name env h refs) (by decide),
      filter_ne_self_nil_of_names _ "BLEURT" (evaluate_bleurt_name env h refs),
      filter_ne_of_names _ "COMET" "BLEURT" (cometPart_name env h refs src) (by decide)]

theorem evaluate_single_fail_comet (env : Env) (h : String) (refs : List String)
    (src : Option String) :
    evaluate_single (failAt env "comet") h refs src =
      (evaluate_single env h refs src).filter (fun s => s.metric_name ≠ "COMET") := by
  have e1 : evaluate_bleu (failAt env "comet") h refs = evaluate_bleu env h refs := rfl
  have e2 : evaluate_chrf (failAt env "comet") h refs = evaluate_chrf env h refs := rfl
  have e3 : evaluate_meteor (failAt env "comet") h refs = evaluate_meteor env h refs := rfl
  have e4 : evaluate_rouge (failAt env "comet") h refs = evaluate_rouge env h refs := rfl
  have e5 : evaluate_bertscore (failAt env "comet") h refs = evaluate_bertscore env h refs := rfl
  have e6 : evaluate_bleurt (failAt env "comet") h refs = evaluate_bleurt env h refs := rfl
  have e7 : cometPart (failAt env "comet") h refs src = [] := by
    rcases src with _ | t
    · rfl
    · by_cases ht : t = ""
      · simp [cometPart, ht]
      · simp only [cometPart]
        rw [if_neg ht]
        exact evaluate_comet_fail _ h t refs (fun a b c => by simp [failAt])
  unfold evaluate_single
  rw [e1, e2, e3, e4, e5, e6, e7]
  rw [List.filter_append, List.filter_append, List.filter_append, List.filter_append,
      List.filter_append, List.filter_append]
  rw [filter_ne_of_names _ "BLEU-4" "COMET" (evaluate_bleu_name env h refs) (by decide),
      filter_ne_of_names _ "chrF++" "COMET" (evaluate_chrf_name env h refs) (by decide),
      filter_ne_of_names _ "METEOR" "COMET" (evaluate_meteor_name env h refs) (by decide),
      filter_ne_of_names _ "ROUGE-L" "COMET" (evaluate_rouge_name env h refs) (by decide),
      filter_ne_of_names _ "BERTScore" "COMET" (evaluate_bertscore_name env h refs) (by decide),
      filter_ne_of_names _ "BLEURT" "COMET" (evaluate_bleurt_name env h refs) (by decide),
      filter_ne_self_nil_of_names _ "COMET" (cometPart_name env h refs src)]

theorem perRefGo_fail_of_single (env env' : Env) (X : String)
    (hs : ∀ h refs src, evaluate_single env' h refs src =
      (evaluate_single env h refs src).filter (fun s => s.metric_name ≠ X))
    (h : String) (src : Option String) :
    ∀ (rs : List String) (i : Nat),
      perRefGo env' h src rs i =
        (perRefGo env h src rs i).map
          (fun pr => (pr.1, pr.2.filter (fun s => s.metric_name ≠ X))) := by
  intro rs
  induction rs with
  | nil => intro i; rfl
  | cons r rest ih =>
    intro i
    have hrow : singleRefScores env' h r src =
        (singleRefScores env h r src).filter (fun s => s.metric_name ≠ X) := hs h [r] src
    simp only [perRefGo, List.map_cons, ih (i + 1), hrow]

theorem perRefTable_fail_of_single (env env' : Env) (X : String)
    (hs : ∀ h refs src, evaluate_single env' h refs src =
      (evaluate_single env h refs src).filter (fun s => s.metric_name ≠ X))
    (h : String) (refs : List String) (src : Option String) :
    perRefTable env' h refs src =
      (perRefTable env h refs src).map
        (fun pr => (pr.1, pr.2.filter (fun q => q.1 ≠ X))) := by
  unfold perRefTable evaluate_per_reference
  rw [perRefGo_fail_of_single env env' X hs h src refs 1]
  rw [List.map_map, List.map_map]
  apply List.map_congr_left
  intro pr _
  show (pr.1, (pr.2.filter (fun s => s.metric_name ≠ X)).map (fun s => (s.metric_name, s.score))) =
    (pr.1, (pr.2.map (fun s => (s.metric_name, s.score))).filter (fun q => q.1 ≠ X))
  rw [List.filter_map]
  rfl

theorem evaluate_chunk_fail_of_single (env env' : Env) (X : String)
    (hs : ∀ h refs src, evaluate_single env' h refs src =
      (evaluate_single env h refs src).filter (fun s => s.metric_name ≠ X))
    (cid srcT : String) (mts : List (String × String)) (refs : List String) (b : Bool) :
    evaluate_chunk env' cid srcT mts refs b =
      (evaluate_chunk env cid srcT mts refs b).map
        (fun ev => { ev with
          scores := ev.scores.filter (fun s => s.metric_name ≠ X),
          per_reference_scores := ev.per_reference_scores.map
            (fun pr => (pr.1, pr.2.filter (fun q => q.1 ≠ X))) }) := by
  induction mts with
  | nil => rfl
  | cons mt rest ih =>
    simp only [evaluate_chunk] at ih ⊢
    by_cases hb : isBlank mt.2
    · simp only [List.filterMap_cons, hb, if_pos]
      exact ih
    · simp only [List.filterMap_cons, if_neg hb, List.map_cons]
      rw [ih]
      congr 1
      rw [hs mt.2 refs (some srcT),
          perRefTable_fail_of_single env env' X hs mt.2 refs (some srcT)]
      cases b <;> simp

theorem filter_eq_of_filter_ne (l : List EvaluationScore) (X : String) :
    (l.filter (fun s => s.metric_name ≠ X)).filter (fun s => s.metric_name = X) = [] := by
  rw [List.filter_eq_nil_iff]
  intro s hsmem
  have hne := List.of_mem_filter hsmem
  simp at hne ⊢
  exact hne

/-- Claim C4: stubbing any one metric's scorer to always raise is absorbed
at the call site: no exception escapes evaluate_single or evaluate_chunk
(they stay total functions with the values below), the failing metric's
score is absent from every result list, and for every (model, chunk) pair
the remaining metrics' scores, and the per-reference breakdown entries, are
exactly what they are with the intact environment. -/
theorem claim4_partial_failure_isolation (env : Env) (h cid srcT : String)
    (refs : List String) (src : Option String) (mts : List (String × String)) (b : Bool)
    (key : String)
    (hkey : key ∈ ["bleu", "chrf", "meteor", "rouge", "bertscore", "bleurt", "comet"]) :
    (evaluate_single (failAt env key) h refs src).filter
        (fun s => s.metric_name = metricNameOf key) = [] ∧
    evaluate_single (failAt env key) h refs src =
      (evaluate_single env h refs src).filter (fun s => s.metric_name ≠ metricNameOf key) ∧
    evaluate_chunk (failAt env key) cid srcT mts refs b =
      (evaluate_chunk env cid srcT mts refs b).map
        (fun ev => { ev with
          scores := ev.scores.filter (fun s => s.metric_name ≠ metricNameOf key),
          per_reference_scores := ev.per_reference_scores.map
            (fun pr => (pr.1, pr.2.filter (fun q => q.1 ≠ metricNameOf key))) }) := by
  simp only [List.mem_cons, List.not_mem_nil, or_false] at hkey
  rcases hkey with rfl | rfl | rfl | rfl | rfl | rfl | rfl
  · exact ⟨by rw [evaluate_single_fail_bleu env h refs src]; exact filter_eq_of_filter_ne _ _,
      evaluate_single_fail_bleu env h refs src,
      evaluate_chunk_fail_of_single env _ _ (evaluate_single_fail_bleu env) cid srcT mts refs b⟩
  · exact ⟨by rw [evaluate_single_fail_chrf env h refs src]; exact filter_eq_of_filter_ne _ _,
      evaluate_single_fail_chrf env h refs src,
      evaluate_chunk_fail_of_single env _ _ (evaluate_single_fail_chrf env) cid srcT mts refs b⟩
  · exact ⟨by rw [evaluate_single_fail_meteor env h refs src]; exact filter_eq_of_filter_ne _ _,
      evaluate_single_fail_meteor env h refs src,
      evaluate_chunk_fail_of_single env _ _ (evaluate_single_fail_meteor env) cid srcT mts refs b⟩
  · exact ⟨by rw [evaluate_single_fail_rouge env h refs src]; exact filter_eq_of_filter_ne _ _,
      evaluate_single_fail_rouge env h refs src,
      evaluate_chunk_fail_of_single env _ _ (evaluate_single_fail_rouge env) cid srcT mts refs b⟩
  · exact ⟨by rw [evaluate_single_fail_bertscore env h refs src]; exact filter_eq_of_filter_ne _ _,
      evaluate_single_fail_bertscore env h refs src,
      evaluate_chunk_fail_of_single env _ _ (evaluate_single_fail_bertscore env) cid srcT mts refs b⟩
  · exact ⟨by rw [evaluate_single_fail_bleurt env h refs src]; exact filter_eq_of_filter_ne _ _,
      evaluate_single_fail_bleurt env h refs src,
      evaluate_chunk_fail_of_single env _ _ (evaluate_single_fail_bleurt env) cid srcT mts refs b⟩
  · exact ⟨by rw [evaluate_single_fail_comet env h refs src]; exact filter_eq_of_filter_ne _ _,
      evaluate_single_fail_comet env h refs src,
      evaluate_chunk_fail_of_single env _ _ (evaluate_single_fail_comet env) cid srcT mts refs b⟩

/-- Witness for claim C4 at a concrete input. -/
theorem claim4_witness :
    ("rouge" ∈ ["bleu", "chrf", "meteor", "rouge", "bertscore", "bleurt", "comet"]) ∧
    ((evaluate_single (failAt demoEnv "rouge") "h" ["r1"] (some "s")).filter
        (fun s => s.metric_name = metricNameOf "rouge") = [] ∧
     evaluate_single (failAt demoEnv "rouge") "h" ["r1"] (some "s") =
       (evaluate_single demoEnv "h" ["r1"] (some "s")).filter
         (fun s => s.metric_name ≠ metricNameOf "rouge") ∧
     evaluate_chunk (failAt demoEnv "rouge") "c1" "g" [("m", "t")] ["r1"] true =
       (evaluate_chunk demoEnv "c1" "g" [("m", "t")] ["r1"] true).map
         (fun ev => { ev with
           scores := ev.scores.filter (fun s => s.metric_name ≠ metricNameOf "rouge"),
           per_reference_scores := ev.per_reference_scores.map
             (fun pr => (pr.1, pr.2.filter (fun q => q.1 ≠ metricNameOf "rouge"))) })) :=
  ⟨by decide,
   claim4_partial_failure_isolation demoEnv "h" "c1" "g" ["r1"] (some "s") [("m", "t")]
     true "rouge" (by decide)⟩

/-- Claim C10: a translation record that is neither an object with a
translation attribute nor a mapping containing the translation key is
stringified: str(record) becomes the hypothesis text, and (when it is not
blank) it is scored like any other translation rather than skipped: the
chunk evaluation built from it carries the full multi-reference scores of
that string. -/
theorem claim10_plain_record_stringified (env : Env) (cid gk : String)
    (refs : List String) (m s : String) (hs : isBlank s = false) :
    recordHyp (TransRecord.plain s) = s ∧
    (∀ entries, entries.find? (fun p => p.1 = "translation") = none →
       recordHyp (TransRecord.mapping entries) = dictStr entries) ∧
    evaluate_all env [⟨cid, gk, refs⟩] [(cid, [(m, TransRecord.plain s)])] =
      [{ chunk_id := cid, model_name := m,
         scores := evaluate_single env s refs (some gk),
         per_reference_scores := perRefTable env s refs (some gk) }] := by
  refine ⟨rfl, ?_, ?_⟩
  · intro entries he
    simp [recordHyp, he]
  · simp [evaluate_all, evaluate_chunk, recordHyp, hs]

/-- Witness for claim C10 at a concrete input. -/
theorem claim10_witness :
    isBlank "x" = false ∧
    (recordHyp (TransRecord.plain "x") = "x" ∧
     (∀ entries, entries.find? (fun p => p.1 = "translation") = none →
        recordHyp (TransRecord.mapping entries) = dictStr entries) ∧
     evaluate_all demoEnv [⟨"c1", "g", ["r1"]⟩] [("c1", [("m", TransRecord.plain "x")])] =
       [{ chunk_id := "c1", model_name := "m",
          scores := evaluate_single demoEnv "x" ["r1"] (some "g"),
          per_reference_scores := perRefTable demoEnv "x" ["r1"] (some "g") }]) :=
  ⟨by decide, claim10_plain_record_stringified demoEnv "c1" "g" ["r1"] "m" "x" (by decide)⟩

theorem mem_evaluate_chunk_iff (env : Env) (cid srcT : String)
    (mts : List (String × String)) (refs : List String) (b : Bool) (ev : ChunkEvaluation) :
    ev ∈ evaluate_chunk env cid srcT mts refs b ↔
      ∃ p ∈ mts, isBlank p.2 = false ∧
        ev = { chunk_id := cid, model_name := p.1,
               scores := evaluate_single env p.2 refs (some srcT),
               per_reference_scores :=
                 if b then perRefTable env p.2 refs (some srcT) else [] } := by
  unfold evaluate_chunk
  rw [List.mem_filterMap]
  constructor
  · rintro ⟨p, hp, hpe⟩
    by_cases hb : isBlank p.2
    · simp [hb] at hpe
    · rw [if_neg hb] at hpe
      exact ⟨p, hp, by simp [hb], (Option.some_inj.mp hpe).symm⟩
  · rintro ⟨p, hp, hb, he⟩
    exact ⟨p, hp, by simp [hb, he]⟩

/-- Claim C7: a model whose translation is empty or whitespace-only is
skipped entirely by evaluate_chunk: assuming distinct model names, the
output contains no ChunkEvaluation for that model (in particular no metric
score at all for the (model, chunk) pair), while every model with a
non-blank translation still receives its full evaluation. -/
theorem claim7_blank_hypothesis_skipped (env : Env) (cid srcT : String)
    (mts : List (String × String)) (refs : List String) (b : Bool) (m t : String)
    (hmem : (m, t) ∈ mts) (hblank : isBlank t = true)
    (hnd : (mts.map (fun p => p.1)).Nodup) :
    (∀ ev ∈ evaluate_chunk env cid srcT mts refs b, ev.model_name ≠ m) ∧
    (∀ p ∈ mts, isBlank p.2 = false →
      ({ chunk_id := cid, model_name := p.1,
         scores := evaluate_single env p.2 refs (some srcT),
         per_reference_scores :=
           if b then perRefTable env p.2 refs (some srcT) else [] } : ChunkEvaluation) ∈
        evaluate_chunk env cid srcT mts refs b) := by
  constructor
  · intro ev hev hcontra
    rcases (mem_evaluate_chunk_iff env cid srcT mts refs b ev).mp hev with ⟨p, hp, hpb, hevq⟩
    have hkey : p.1 = m := by rw [hevq] at hcontra; exact hcontra
    have hpq : p = (m, t) :=
      List.inj_on_of_nodup_map hnd hp hmem (by simpa using hkey)
    rw [hpq] at hpb
    simp only [] at hpb
    rw [hblank] at hpb
    exact Bool.true_eq_false.mp hpb
  · intro p hp hpb
    exact (mem_evaluate_chunk_iff env cid srcT mts refs b _).mpr ⟨p, hp, hpb, rfl⟩

/-- Witness for claim C7 at a concrete input. -/
theorem claim7_witness :
    (("mBlank", " ") ∈ [("mBlank", " "), ("mGood", "x")] ∧ isBlank " " = true ∧
      ([("mBlank", " "), ("mGood", "x")].map (fun p => p.1)).Nodup) ∧
    ((∀ ev ∈ evaluate_chunk demoEnv "c1" "g" [("mBlank", " "), ("mGood", "x")] ["r1"] true,
        ev.model_name ≠ "mBlank") ∧
     (∀ p ∈ [("mBlank", " "), ("mGood", "x")], isBlank p.2 = false →
       ({ chunk_id := "c1", model_name := p.1,
          scores := evaluate_single demoEnv p.2 ["r1"] (some "g"),
          per_reference_scores :=
            if true then perRefTable demoEnv p.2 ["r1"] (some "g") else [] } :
              ChunkEvaluation) ∈
         evaluate_chunk demoEnv "c1" "g" [("mBlank", " "), ("mGood", "x")] ["r1"] true)) :=
  ⟨⟨by decide, by decide, by decide⟩,
   claim7_blank_hypothesis_skipped demoEnv "c1" "g" [("mBlank", " "), ("mGood", "x")]
     ["r1"] true "mBlank" " " (by decide) (by decide) (by decide)⟩

theorem bestGo_some_spec {α : Type} (fetch : String → Option α) (val : α → Rat) :
    ∀ (rs : List String) (k : Nat) (b : α) (bi : Nat),
      (∀ r ∈ rs, (fetch r).isSome) →
      ∃ a j, bestGo fetch val rs k (some (b, bi)) = some (a, j) ∧
        val a = (rs.map (fetchVal fetch val)).foldl max (val b) ∧
        ((a, j) = (b, bi) ∨
          ∃ i : Fin rs.length, j = k + i + 1 ∧ fetchVal fetch val (rs.get i) = val a) := by
  intro rs
  induction rs with
  | nil => exact fun k b bi _ => ⟨b, bi, rfl, rfl, Or.inl rfl⟩
  | cons r rest ih =>
    intro k b bi hsucc
    obtain ⟨a0, ha0⟩ := Option.isSome_iff_exists.mp (hsucc r (List.mem_cons_self r rest))
    have hf : fetchVal fetch val r = val a0 := by simp [fetchVal, ha0]
    have hsucc' : ∀ r' ∈ rest, (fetch r').isSome :=
      fun r' hr' => hsucc r' (List.mem_cons_of_mem r hr')
    by_cases hgt : val a0 > val b
    · obtain ⟨a, j, heq, hval, hcase⟩ := ih (k + 1) a0 (k + 1) hsucc'
      refine ⟨a, j, ?_, ?_, ?_⟩
      · simp only [bestGo, ha0]
        rw [if_pos hgt]
        exact heq
      · rw [List.map_cons, List.foldl_cons, hf, max_eq_right (le_of_lt hgt)]
        exact hval
      · rcases hcase with hl | ⟨i, hj, hv⟩
        · refine Or.inr ⟨⟨0, by simp⟩, ?_, ?_⟩
          · have h2 : j = k + 1 := congrArg Prod.snd hl
            show j = k + 0 + 1
            omega
          · have h3 : a = a0 := congrArg Prod.fst hl
            show fetchVal fetch val r = val a
            rw [hf, h3]
        · refine Or.inr ⟨⟨i.val + 1, by simp⟩, ?_, ?_⟩
          · show j = k + (i.val + 1) + 1
            omega
          · exact hv
    · obtain ⟨a, j, heq, hval, hcase⟩ := ih (k + 1) b bi hsucc'
      refine ⟨a, j, ?_, ?_, ?_⟩
      · simp only [bestGo, ha0]
        rw [if_neg hgt]
        exact heq
      · rw [List.map_cons, List.foldl_cons, hf, max_eq_left (le_of_not_lt hgt)]
        exact hval
      · rcases hcase with hl | ⟨i, hj, hv⟩
        · exact Or.inl hl
        · refine Or.inr ⟨⟨i.val + 1, by simp⟩, ?_, ?_⟩
          · show j = k + (i.val + 1) + 1
            omega
          · exact hv

theorem bestGo_none_spec {α : Type} (fetch : String → Option α) (val : α → Rat)
    (rs : List String) (k : Nat) (hne : rs ≠ [])
    (hsucc : ∀ r ∈ rs, (fetch r).isSome) :
    ∃ a j, bestGo fetch val rs k none = some (a, j) ∧
      val a = listMax (rs.map (fetchVal fetch val)) ∧
      ∃ i : Fin rs.length, j = k + i + 1 ∧ fetchVal fetch val (rs.get i) = val a := by
  match rs, hne with
  | r :: rest, _ =>
    obtain ⟨a0, ha0⟩ := Option.isSome_iff_exists.mp (hsucc r (List.mem_cons_self r rest))
    have hf : fetchVal fetch val r = val a0 := by simp [fetchVal, ha0]
    have hsucc' : ∀ r' ∈ rest, (fetch r').isSome :=
      fun r' hr' => hsucc r' (List.mem_cons_of_mem r hr')
    obtain ⟨a, j, heq, hval, hcase⟩ := bestGo_some_spec fetch val rest (k + 1) a0 (k + 1) hsucc'
    refine ⟨a, j, ?_, ?_, ?_⟩
    · simp only [bestGo, ha0]
      exact heq
    · rw [List.map_cons]
      show val a = (rest.map (fetchVal fetch val)).foldl max (fetchVal fetch val r)
      rw [hf]
      exact hval
    · rcases hcase with hl | ⟨i, hj, hv⟩
      · refine ⟨⟨0, by simp⟩, ?_, ?_⟩
        · have h2 : j = k + 1 := congrArg Prod.snd hl
          show j = k + 0 + 1
          omega
        · have h3 : a = a0 := congrArg Prod.fst hl
          show fetchVal fetch val r = val a
          rw [hf, h3]
      · refine ⟨⟨i.val + 1, by simp⟩, ?_, ?_⟩
        · show j = k + (i.val + 1) + 1
          omega
        · exact hv

theorem bertGo_eq_bestGo (fetch : String → Option (Rat × Rat × Rat)) :
    ∀ (rs : List String) (k : Nat) (b : Rat × Rat × Rat) (bi : Nat),
      bertGo fetch rs k b.2.2 (some (b, bi)) =
        (bestGo fetch (fun t => t.2.2) rs k (some (b, bi))).map some := by
  intro rs
  induction rs with
  | nil => intro k b bi; rfl
  | cons r rest ih =>
    intro k b bi
    cases hfr : fetch r with
    | none => simp [bertGo, bestGo, hfr]
    | some prf =>
      simp only [bertGo, bestGo, hfr]
      split
      · exact ih (k + 1) prf (k + 1)
      · exact ih (k + 1) b bi

theorem bertGo_eq_bestGo_start (fetch : String → Option (Rat × Rat × Rat))
    (r : String) (rest : List String) (prf : Rat × Rat × Rat)
    (hfr : fetch r = some prf) (hgt : prf.2.2 > -1) :
    bertGo fetch (r :: rest) 0 (-1) none =
      (bestGo fetch (fun t => t.2.2) (r :: rest) 0 none).map some := by
  simp only [bertGo, bestGo, hfr, if_pos hgt]
  exact bertGo_eq_bestGo fetch rest 1 prf 1

/-- Claim C1: for at least two references, each max-over-references metric
(ROUGE-L, BERTScore, BLEURT, COMET) returns, whenever its active scorer
succeeds on every reference (and, for BERTScore, every per-reference F1
exceeds the -1 initialisation), a single score equal to the maximum of the
per-reference scores, and the best_reference detail records a 1-based index
of a reference achieving that maximum. -/
theorem claim1_max_over_references (env : Env) (h src : String) (refs : List String)
    (hlen : 2 ≤ refs.length) :
    (("rouge" ∈ env.handlers ∧ ∀ r ∈ refs, (env.rouge r h).isSome) →
      ∃ s, evaluate_rouge env h refs = [s] ∧
        s.score = listMax (refs.map (rougeF env h)) ∧
        ∃ i : Fin refs.length, rougeF env h (refs.get i) = s.score ∧
          dlookup s "best_reference" = some (DVal.rval ((i.val + 1 : Nat) : Rat))) ∧
    (("bertscore" ∈ env.handlers ∧ (∀ r ∈ refs, (env.bert h r).isSome) ∧
        ∀ r ∈ refs, bertF1 env h r > -1) →
      ∃ s, evaluate_bertscore env h refs = [s] ∧
        s.score = listMax (refs.map (bertF1 env h)) ∧
        ∃ i : Fin refs.length, bertF1 env h (refs.get i) = s.score ∧
          dlookup s "best_reference" = some (DVal.rval ((i.val + 1 : Nat) : Rat))) ∧
    (("bleurt" ∈ env.handlers ∧ ∀ r ∈ refs, (env.bleurt r h).isSome) →
      ∃ s, evaluate_bleurt env h refs = [s] ∧
        s.score = listMax (refs.map (bleurtV env h)) ∧
        ∃ i : Fin refs.length, bleurtV env h (refs.get i) = s.score ∧
          dlookup s "best_reference" = some (DVal.rval ((i.val + 1 : Nat) : Rat))) ∧
    (("comet" ∈ env.handlers ∧ ∀ r ∈ refs, (env.comet src h r).isSome) →
      ∃ s, evaluate_comet env h refs src = [s] ∧
        s.score = listMax (refs.map (cometV env src h)) ∧
        ∃ i : Fin refs.length, cometV env src h (refs.get i) = s.score ∧
          dlookup s "best_reference" = some (DVal.rval ((i.val + 1 : Nat) : Rat))) := by
  have hne : refs ≠ [] := by
    intro hc
    rw [hc] at hlen
    simp at hlen
  refine ⟨?_, ?_, ?_, ?_⟩
  · rintro ⟨hh, hsucc⟩
    obtain ⟨a, j, heq, hval, i, hj, hv⟩ :=
      bestGo_none_spec (fun r => env.rouge r h) (fun t => t.1) refs 0 hne hsucc
    refine ⟨{ metric_name := "ROUGE-L", score := a.1,
              details := [("precision", .rval a.2.1), ("recall", .rval a.2.2),
                          ("best_reference", .rval (j : Rat)),
                          ("num_references", .rval (refs.length : Rat)),
                          ("aggregation", .sval "max")] }, ?_, hval, i, hv, ?_⟩
    · unfold evaluate_rouge
      rw [if_pos hh, heq]
    · simp [dlookup]
      rw [hj]
      norm_num
  · rintro ⟨hh, hsucc, hgt⟩
    match refs, hne with
    | r :: rest, _ =>
      obtain ⟨prf, hfr⟩ := Option.isSome_iff_exists.mp (hsucc r (List.mem_cons_self r rest))
      have hgtr : prf.2.2 > -1 := by
        have := hgt r (List.mem_cons_self r rest)
        rw [bertF1, fetchVal, hfr] at this
        exact this
      obtain ⟨a, j, heq, hval, i, hj, hv⟩ :=
        bestGo_none_spec (fun r => env.bert h r) (fun t => t.2.2) (r :: rest) 0
          (by simp) hsucc
      refine ⟨{ metric_name := "BERTScore", score := a.2.2,
                details := [("precision", .rval a.1), ("recall", .rval a.2.1),
                            ("f1", .rval a.2.2),
                            ("best_reference", .rval (j : Rat)),
                            ("num_references", .rval ((r :: rest).length : Rat)),
                            ("aggregation", .sval "max")] }, ?_, hval, i, hv, ?_⟩
      · unfold evaluate_bertscore
        rw [if_pos hh, bertGo_eq_bestGo_start _ r rest prf hfr hgtr, heq,
            Option.map_some']
      · simp [dlookup]
        rw [hj]
        norm_num
  · rintro ⟨hh, hsucc⟩
    obtain ⟨a, j, heq, hval, i, hj, hv⟩ :=
      bestGo_none_spec (fun r => env.bleurt r h) (fun s => s) refs 0 hne hsucc
    refine ⟨{ metric_name := "BLEURT", score := a,
              details := [("best_reference", .rval (j : Rat)),
                          ("num_references", .rval (refs.length : Rat)),
                          ("aggregation", .sval "max")] }, ?_, hval, i, hv, ?_⟩
    · unfold evaluate_bleurt
      rw [if_pos hh, heq]
    · simp [dlookup]
      rw [hj]
      norm_num
  · rintro ⟨hh, hsucc⟩
    obtain ⟨a, j, heq, hval, i, hj, hv⟩ :=
      bestGo_none_spec (fun r => env.comet src h r) (fun s => s) refs 0 hne hsucc
    refine ⟨{ metric_name := "COMET", score := a,
              details := [("best_reference", .rval (j : Rat)),
                          ("num_references", .rval (refs.length : Rat)),
                          ("aggregation", .sval "max")] }, ?_, hval, i, hv, ?_⟩
    · unfold evaluate_comet
      rw [if_pos hh, heq]
    · simp [dlookup]
      rw [hj]
      norm_num

/-- Witness for claim C1 at a concrete input. -/
theorem claim1_witness :
    2 ≤ (["r1", "r2"] : List String).length ∧
    ((("rouge" ∈ demoEnv.handlers ∧ ∀ r ∈ ["r1", "r2"], (demoEnv.rouge r "h").isSome) →
      ∃ s, evaluate_rouge demoEnv "h" ["r1", "r2"] = [s] ∧
        s.score = listMax (["r1", "r2"].map (rougeF demoEnv "h")) ∧
        ∃ i : Fin (["r1", "r2"] : List String).length,
          rougeF demoEnv "h" (["r1", "r2"].get i) = s.score ∧
          dlookup s "best_reference" = some (DVal.rval ((i.val + 1 : Nat) : Rat))) ∧
    (("bertscore" ∈ demoEnv.handlers ∧ (∀ r ∈ ["r1", "r2"], (demoEnv.bert "h" r).isSome) ∧
        ∀ r ∈ ["r1", "r2"], bertF1 demoEnv "h" r > -1) →
      ∃ s, evaluate_bertscore demoEnv "h" ["r1", "r2"] = [s] ∧
        s.score = listMax (["r1", "r2"].map (bertF1 demoEnv "h")) ∧
        ∃ i : Fin (["r1", "r2"] : List String).length,
          bertF1 demoEnv "h" (["r1", "r2"].get i) = s.score ∧
          dlookup s "best_reference" = some (DVal.rval ((i.val + 1 : Nat) : Rat))) ∧
    (("bleurt" ∈ demoEnv.handlers ∧ ∀ r ∈ ["r1", "r2"], (demoEnv.bleurt r "h").isSome) →
      ∃ s, evaluate_bleurt demoEnv "h" ["r1", "r2"] = [s] ∧
        s.score = listMax (["r1", "r2"].map (bleurtV demoEnv "h")) ∧
        ∃ i : Fin (["r1", "r2"] : List String).length,
          bleurtV demoEnv "h" (["r1", "r2"].get i) = s.score ∧
          dlookup s "best_reference" = some (DVal.rval ((i.val + 1 : Nat) : Rat))) ∧
    (("comet" ∈ demoEnv.handlers ∧ ∀ r ∈ ["r1", "r2"], (demoEnv.comet "s" "h" r).isSome) →
      ∃ s, evaluate_comet demoEnv "h" ["r1", "r2"] "s" = [s] ∧
        s.score = listMax (["r1", "r2"].map (cometV demoEnv "s" "h")) ∧
        ∃ i : Fin (["r1", "r2"] : List String).length,
          cometV demoEnv "s" "h" (["r1", "r2"].get i) = s.score ∧
          dlookup s "best_reference" = some (DVal.rval ((i.val + 1 : Nat) : Rat)))) :=
  ⟨by decide, claim1_max_over_references demoEnv "h" "s" ["r1", "r2"] (by decide)⟩

theorem bestGo_mem {α : Type} (fetch : String → Option α) (val : α → Rat) :
    ∀ (rs : List String) (k : Nat) (acc : Option (α × Nat)) (res : α × Nat),
      bestGo fetch val rs k acc = some res →
      acc = some res ∨ ∃ r ∈ rs, fetch r = some res.1 := by
  intro rs
  induction rs with
  | nil => exact fun k acc res h => Or.inl h
  | cons r rest ih =>
    intro k acc res hres
    cases hfr : fetch r with
    | none => simp [bestGo, hfr] at hres
    | some a =>
      rcases acc with _ | ⟨b, bi⟩
      · simp only [bestGo, hfr] at hres
        rcases ih (k + 1) (some (a, k + 1)) res hres with hl | ⟨r', hr', he⟩
        · have : res.1 = a := (congrArg Prod.fst (Option.some_inj.mp hl)).symm
          exact Or.inr ⟨r, List.mem_cons_self r rest, by rw [hfr, this]⟩
        · exact Or.inr ⟨r', List.mem_cons_of_mem r hr', he⟩
      · simp only [bestGo, hfr] at hres
        split at hres
        · rcases ih (k + 1) (some (a, k + 1)) res hres with hl | ⟨r', hr', he⟩
          · have : res.1 = a := (congrArg Prod.fst (Option.some_inj.mp hl)).symm
            exact Or.inr ⟨r, List.mem_cons_self r rest, by rw [hfr, this]⟩
          · exact Or.inr ⟨r', List.mem_cons_of_mem r hr', he⟩
        · rcases ih (k + 1) (some (b, bi)) res hres with hl | ⟨r', hr', he⟩
          · exact Or.inl hl
          · exact Or.inr ⟨r', List.mem_cons_of_mem r hr', he⟩

/-- Claim C6: scores of the normalised metric families (BLEU-4 and chrF++
after the division of the library's 0..100 value by 100, the ROUGE-L
f-measure) lie in [0, 1] whenever the underlying library values are in
their nominal ranges, while BLEURT and COMET scores are returned exactly
as computed by the library, with no clipping: the reported score is
literally one of the library's per-reference outputs, negative or above
one included. -/
theorem claim6_boundedness (env : Env) (h src : String) (refs : List String) :
    ((∀ q, env.bleuRaw h refs = some q → 0 ≤ q.1 ∧ q.1 ≤ 100) →
      ∀ s ∈ evaluate_bleu env h refs, 0 ≤ s.score ∧ s.score ≤ 1) ∧
    ((∀ q, env.chrfRaw h refs = some q → 0 ≤ q ∧ q ≤ 100) →
      ∀ s ∈ evaluate_chrf env h refs, 0 ≤ s.score ∧ s.score ≤ 1) ∧
    ((∀ r t, r ∈ refs → env.rouge r h = some t → 0 ≤ t.1 ∧ t.1 ≤ 1) →
      ∀ s ∈ evaluate_rouge env h refs, 0 ≤ s.score ∧ s.score ≤ 1) ∧
    (∀ s ∈ evaluate_bleurt env h refs, ∃ r ∈ refs, env.bleurt r h = some s.score) ∧
    (∀ s ∈ evaluate_comet env h refs src, ∃ r ∈ refs, env.comet src h r = some s.score) := by
  refine ⟨?_, ?_, ?_, ?_, ?_⟩
  · intro hb s hs
    unfold evaluate_bleu at hs
    split at hs
    · cases hq : env.bleuRaw h refs with
      | none => rw [hq] at hs; simp at hs
      | some q =>
        rw [hq] at hs
        simp only [List.mem_singleton] at hs
        subst hs
        obtain ⟨h0, h100⟩ := hb q hq
        constructor
        · exact div_nonneg h0 (by norm_num)
        · rw [div_le_one (by norm_num)]
          exact h100
    · simp at hs
  · intro hb s hs
    unfold evaluate_chrf at hs
    split at hs
    · cases hq : env.chrfRaw h refs with
      | none => rw [hq] at hs; simp at hs
      | some q =>
        rw [hq] at hs
        simp only [List.mem_singleton] at hs
        subst hs
        obtain ⟨h0, h100⟩ := hb q hq
        constructor
        · exact div_nonneg h0 (by norm_num)
        · rw [div_le_one (by norm_num)]
          exact h100
    · simp at hs
  · intro hb s hs
    unfold evaluate_rouge at hs
    split at hs
    · cases hbg : bestGo (fun r => env.rouge r h) (fun t => t.1) refs 0 none with
      | none => rw [hbg] at hs; simp at hs
      | some best =>
        rw [hbg] at hs
        simp only [List.mem_singleton] at hs
        subst hs
        rcases bestGo_mem _ _ refs 0 none best hbg with hl | ⟨r, hr, he⟩
        · exact absurd hl (by simp)
        · exact hb r best.1 hr he
    · simp at hs
  · intro s hs
    unfold evaluate_bleurt at hs
    split at hs
    · cases hbg : bestGo (fun r => env.bleurt r h) (fun q => q) refs 0 none with
      | none => rw [hbg] at hs; simp at hs
      | some best =>
        rw [hbg] at hs
        simp only [List.mem_singleton] at hs
        subst hs
        rcases bestGo_mem _ _ refs 0 none best hbg with hl | ⟨r, hr, he⟩
        · exact absurd hl (by simp)
        · exact ⟨r, hr, he⟩
    · simp at hs
  · intro s hs
    unfold evaluate_comet at hs
    split at hs
    · cases hbg : bestGo (fun r => env.comet src h r) (fun q => q) refs 0 none with
      | none => rw [hbg] at hs; simp at hs
      | some best =>
        rw [hbg] at hs
        simp only [List.mem_singleton] at hs
        subst hs
        rcases bestGo_mem _ _ refs 0 none best hbg with hl | ⟨r, hr, he⟩
        · exact absurd hl (by simp)
        · exact ⟨r, hr, he⟩
    · simp at hs

/-- Witness for claim C6 at a concrete input. -/
theorem claim6_witness :
    (∀ q, demoEnv.bleuRaw "h" ["r1", "r2"] = some q → 0 ≤ q.1 ∧ q.1 ≤ 100) ∧
    (∀ s ∈ evaluate_bleu demoEnv "h" ["r1", "r2"], 0 ≤ s.score ∧ s.score ≤ 1) ∧
    (∀ r t, r ∈ (["r1", "r2"] : List String) → demoEnv.rouge r "h" = some t →
      0 ≤ t.1 ∧ t.1 ≤ 1) ∧
    (∀ s ∈ evaluate_rouge demoEnv "h" ["r1", "r2"], 0 ≤ s.score ∧ s.score ≤ 1) ∧
    (∀ s ∈ evaluate_bleurt demoEnv "h" ["r1", "r2"],
      ∃ r ∈ (["r1", "r2"] : List String), demoEnv.bleurt r "h" = some s.score) := by
  have hb : ∀ q, demoEnv.bleuRaw "h" ["r1", "r2"] = some q → 0 ≤ q.1 ∧ q.1 ≤ 100 := by
    intro q hq
    cases Option.some_inj.mp hq.symm
    decide
  have hr : ∀ r t, r ∈ (["r1", "r2"] : List String) → demoEnv.rouge r "h" = some t →
      0 ≤ t.1 ∧ t.1 ≤ 1 := by
    intro r t hrm ht
    rcases List.mem_cons.mp hrm with rfl | hrm2
    · cases Option.some_inj.mp ht.symm
      decide
    · rcases List.mem_cons.mp hrm2 with rfl | hrm3
      · cases Option.some_inj.mp ht.symm
        decide
      · simp at hrm3
  exact ⟨hb, (claim6_boundedness demoEnv "h" "s" ["r1", "r2"]).1 hb, hr,
    (claim6_boundedness demoEnv "h" "s" ["r1", "r2"]).2.2.1 hr,
    (claim6_boundedness demoEnv "h" "s" ["r1", "r2"]).2.2.2.1⟩

theorem find?_dmod_self {α : Type} (k : String) (f : Option α → α) (al : List (String × α)) :
    (dmod k f al).find? (fun p => p.1 = k) =
      some (k, f ((al.find? (fun p => p.1 = k)).map Prod.snd)) := by
  induction al with
  | nil => simp [dmod, List.find?]
  | cons p rest ih =>
    by_cases hp : p.1 = k
    · simp [dmod, hp, List.find?]
    · simp only [dmod, if_neg hp]
      rw [List.find?_cons_of_neg _ (by simp [hp]), List.find?_cons_of_neg _ (by simp [hp])]
      exact ih

theorem find?_dmod_other {α : Type} (k : String) (f : Option α → α) (al : List (String × α))
    (k' : String) (h : k' ≠ k) :
    (dmod k f al).find? (fun p => p.1 = k') = al.find? (fun p => p.1 = k') := by
  induction al with
  | nil => simp [dmod, List.find?, Ne.symm h]
  | cons p rest ih =>
    by_cases hp : p.1 = k
    · simp only [dmod, if_pos hp]
      rw [List.find?_cons_of_neg _ (by simp [Ne.symm h]),
          List.find?_cons_of_neg _ (by simp [hp ▸ Ne.symm h])]
    · simp only [dmod, if_neg hp]
      by_cases hpk : p.1 = k'
      · rw [List.find?_cons_of_pos _ (by simp [hpk]), List.find?_cons_of_pos _ (by simp [hpk])]
      · rw [List.find?_cons_of_neg _ (by simp [hpk]), List.find?_cons_of_neg _ (by simp [hpk])]
        exact ih

theorem dget_dmod_self {α : Type} (k : String) (f : Option α → α) (al : List (String × α))
    (d : α) :
    dget (dmod k f al) k d = f ((al.find? (fun p => p.1 = k)).map Prod.snd) := by
  unfold dget
  rw [find?_dmod_self]

theorem dget_dmod_other {α : Type} (k : String) (f : Option α → α) (al : List (String × α))
    (k' : String) (d : α) (h : k' ≠ k) :
    dget (dmod k f al) k' d = dget al k' d := by
  unfold dget
  rw [find?_dmod_other k f al k' h]

theorem dget_eq_snd_of_find? {α : Type} (al : List (String × α)) (k : String) (d : α)
    (p : String × α) (h : al.find? (fun q => q.1 = k) = some p) : dget al k d = p.2 := by
  unfold dget
  rw [h]

theorem dget_eq_default_of_find?_none {α : Type} (al : List (String × α)) (k : String)
    (d : α) (h : al.find? (fun q => q.1 = k) = none) : dget al k d = d := by
  unfold dget
  rw [h]

theorem keys_dmod {α : Type} (k : String) (f : Option α → α) (al : List (String × α)) :
    (dmod k f al).map Prod.fst =
      if k ∈ al.map Prod.fst then al.map Prod.fst else al.map Prod.fst ++ [k] := by
  induction al with
  | nil => simp [dmod]
  | cons p rest ih =>
    by_cases hp : p.1 = k
    · simp [dmod, hp]
    · simp only [dmod, if_neg hp, List.map_cons, ih]
      by_cases hk : k ∈ rest.map Prod.fst
      · simp [hk, Ne.symm hp]
      · simp [hk, Ne.symm hp]

theorem nodupKeys_dmod {α : Type} (k : String) (f : Option α → α) (al : List (String × α))
    (h : NodupKeys al) : NodupKeys (dmod k f al) := by
  unfold NodupKeys at *
  rw [keys_dmod]
  by_cases hk : k ∈ al.map Prod.fst
  · rwa [if_pos hk]
  · rw [if_neg hk]
    rw [List.nodup_append]
    refine ⟨h, List.nodup_singleton k, ?_⟩
    intro a ha hak
    simp only [List.mem_singleton] at hak
    exact hk (hak ▸ ha)

theorem mem_dmod {α : Type} (k : String) (f : Option α → α) (al : List (String × α))
    (p : String × α) (hp : p ∈ dmod k f al) :
    p = (k, f ((al.find? (fun q => q.1 = k)).map Prod.snd)) ∨ p ∈ al := by
  induction al with
  | nil => simpa [dmod] using hp
  | cons hd rest ih =>
    by_cases hh : hd.1 = k
    · simp only [dmod, if_pos hh] at hp
      rcases List.mem_cons.mp hp with heq | hmem
      · left
        rw [heq, List.find?_cons_of_pos _ (by simp [hh])]
        rfl
      · right
        exact List.mem_cons_of_mem hd hmem
    · simp only [dmod, if_neg hh] at hp
      rcases List.mem_cons.mp hp with heq | hmem
      · right
        rw [heq]
        exact List.mem_cons_self hd rest
      · rcases ih hmem with hl | hr
        · left
          rw [hl, List.find?_cons_of_neg _ (by simp [hh])]
        · right
          exact List.mem_cons_of_mem hd hr

theorem dmod_ne_nil {α : Type} (k : String) (f : Option α → α) (al : List (String × α)) :
    dmod k f al ≠ [] := by
  cases al with
  | nil => simp [dmod]
  | cons p rest =>
    unfold dmod
    split <;> simp

theorem find?_of_mem_nodupKeys {α : Type} (al : List (String × α)) (h : NodupKeys al)
    (p : String × α) (hp : p ∈ al) : al.find? (fun q => q.1 = p.1) = some p := by
  induction al with
  | nil => simp at hp
  | cons hd rest ih =>
    unfold NodupKeys at h
    simp only [List.map_cons, List.nodup_cons] at h
    rcases List.mem_cons.mp hp with heq | hmem
    · rw [heq, List.find?_cons_of_pos _ (by simp)]
    · have hne : hd.1 ≠ p.1 := by
        intro hcontra
        exact h.1 (hcontra ▸ List.mem_map_of_mem Prod.fst hmem)
      rw [List.find?_cons_of_neg _ (by simp [hne])]
      exact ih h.2 hmem

theorem mem_keys_of_dget_ne {α : Type} (al : List (String × α)) (k : String) (d : α)
    (h : dget al k d ≠ d) : k ∈ al.map Prod.fst := by
  cases hf : al.find? (fun q => q.1 = k) with
  | none => exact absurd (dget_eq_default_of_find?_none al k d hf) h
  | some p =>
    have hk : p.1 = k := by simpa using List.find?_some hf
    exact hk ▸ List.mem_map_of_mem Prod.fst (List.mem_of_find?_eq_some hf)

theorem dictSet_append_of_not_mem {α : Type} (k : String) (v : α) (al : List (String × α))
    (h : k ∉ al.map Prod.fst) : dictSet k v al = al ++ [(k, v)] := by
  induction al with
  | nil => rfl
  | cons p rest ih =>
    simp only [List.map_cons, List.mem_cons] at h
    push_neg at h
    simp only [dictSet, if_neg (Ne.symm h.1)]
    rw [ih h.2]
    rfl

theorem dget_eq_getD {α : Type} (al : List (String × α)) (k : String) (d : α) :
    dget al k d = ((al.find? (fun p => p.1 = k)).map Prod.snd).getD d := by
  unfold dget
  cases al.find? (fun p => p.1 = k) <;> rfl

theorem gLookup_addScore (m' met' : String) (v : Rat)
    (acc : List (String × List (String × List Rat))) (m met : String) :
    gLookup (addScore m' met' v acc) m met =
      if m = m' ∧ met = met' then gLookup acc m met ++ [v] else gLookup acc m met := by
  unfold gLookup addScore
  by_cases hm : m = m'
  · subst hm
    rw [dget_dmod_self, ← dget_eq_getD]
    by_cases hmet : met = met'
    · subst hmet
      rw [dget_dmod_self, ← dget_eq_getD, if_pos ⟨rfl, rfl⟩]
    · rw [dget_dmod_other _ _ _ _ _ hmet, if_neg (by simp [hmet])]
  · rw [dget_dmod_other _ _ _ _ _ hm, if_neg (by simp [hm])]

theorem GSWF_addScore (m met : String) (v : Rat)
    (acc : List (String × List (String × List Rat))) (h : GSWF acc) :
    GSWF (addScore m met v acc) := by
  obtain ⟨h1, h2, h3, h4⟩ := h
  refine ⟨nodupKeys_dmod _ _ _ h1, ?_, ?_, ?_⟩
  · intro p hp
    rcases mem_dmod _ _ _ p hp with heq | hmem
    · rw [heq]
      apply nodupKeys_dmod
      cases hf : acc.find? (fun q => q.1 = m) with
      | none => simp [NodupKeys]
      | some q => simpa using h2 q (List.mem_of_find?_eq_some hf)
    · exact h2 p hmem
  · intro p hp
    rcases mem_dmod _ _ _ p hp with heq | hmem
    · rw [heq]
      exact dmod_ne_nil _ _ _
    · exact h3 p hmem
  · intro p hp q hq
    rcases mem_dmod _ _ _ p hp with heq | hmem
    · rw [heq] at hq
      rcases mem_dmod _ _ _ q hq with heq2 | hmem2
      · rw [heq2]
        simp
      · cases hf : acc.find? (fun z => z.1 = m) with
        | none =>
          rw [hf] at hmem2
          simp at hmem2
        | some z =>
          rw [hf] at hmem2
          exact h4 z (List.mem_of_find?_eq_some hf) q (by simpa using hmem2)
    · exact h4 p hmem q hq

theorem GSWF_nil : GSWF [] := by
  refine ⟨by simp [NodupKeys], by simp, by simp, by simp⟩

theorem GSWF_scoreFold (mn : String) (ss : List EvaluationScore) :
    ∀ acc, GSWF acc →
      GSWF (ss.foldl (fun acc2 s => addScore mn s.metric_name s.score acc2) acc) := by
  induction ss with
  | nil => exact fun acc h => h
  | cons s rest ih =>
    intro acc h
    exact ih _ (GSWF_addScore _ _ _ _ h)

theorem GSWF_foldEvals (e : List ChunkEvaluation) :
    ∀ acc, GSWF acc → GSWF (e.foldl addEval acc) := by
  induction e with
  | nil => exact fun acc h => h
  | cons ev rest ih =>
    intro acc h
    exact ih _ (GSWF_scoreFold _ _ _ h)

theorem GSWF_groupScores (e : List ChunkEvaluation) : GSWF (groupScores e) :=
  GSWF_foldEvals e [] GSWF_nil

theorem gLookup_scoreFold (mn : String) (ss : List EvaluationScore) :
    ∀ (acc : List (String × List (String × List Rat))) (m met : String),
      gLookup (ss.foldl (fun acc2 s => addScore mn s.metric_name s.score acc2) acc) m met =
        gLookup acc m met ++
          (if mn = m then
            ss.filterMap (fun s => if s.metric_name = met then some s.score else none)
          else []) := by
  induction ss with
  | nil =>
    intro acc m met
    simp
  | cons s rest ih =>
    intro acc m met
    rw [List.foldl_cons, ih, gLookup_addScore]
    by_cases hm : mn = m
    · subst hm
      by_cases hmet : s.metric_name = met
      · subst hmet
        rw [if_pos ⟨rfl, rfl⟩]
        simp [List.filterMap_cons]
      · rw [if_neg (by simp [Ne.symm hmet])]
        simp [List.filterMap_cons, hmet]
    · rw [if_neg (by simp [Ne.symm hm])]
      simp [hm]

theorem gLookup_foldEvals (e : List ChunkEvaluation) :
    ∀ (acc : List (String × List (String × List Rat))) (m met : String),
      gLookup (e.foldl addEval acc) m met = gLookup acc m met ++ modelScores e m met := by
  induction e with
  | nil =>
    intro acc m met
    simp [modelScores]
  | cons ev rest ih =>
    intro acc m met
    rw [List.foldl_cons, ih]
    unfold addEval
    rw [gLookup_scoreFold]
    simp [modelScores, List.flatMap_cons, List.append_assoc]

theorem gLookup_groupScores (e : List ChunkEvaluation) (m met : String) :
    gLookup (groupScores e) m met = modelScores e m met := by
  unfold groupScores
  rw [gLookup_foldEvals]
  rfl

theorem foldl_min_mem (l : List Rat) : ∀ a : Rat, l.foldl min a ∈ a :: l := by
  induction l with
  | nil => intro a; simp
  | cons x xs ih =>
    intro a
    rw [List.foldl_cons]
    rcases List.mem_cons.mp (ih (min a x)) with h | h
    · rw [h]
      rcases min_choice a x with hm | hm <;> rw [hm] <;> simp
    · simp [h]

theorem foldl_min_le (l : List Rat) :
    ∀ a : Rat, l.foldl min a ≤ a ∧ ∀ x ∈ l, l.foldl min a ≤ x := by
  induction l with
  | nil => intro a; simp
  | cons x xs ih =>
    intro a
    obtain ⟨h1, h2⟩ := ih (min a x)
    refine ⟨le_trans h1 (min_le_left a x), ?_⟩
    intro y hy
    rcases List.mem_cons.mp hy with rfl | hm
    · exact le_trans h1 (min_le_right a y)
    · exact h2 y hm

theorem foldl_max_mem (l : List Rat) : ∀ a : Rat, l.foldl max a ∈ a :: l := by
  induction l with
  | nil => intro a; simp
  | cons x xs ih =>
    intro a
    rw [List.foldl_cons]
    rcases List.mem_cons.mp (ih (max a x)) with h | h
    · rw [h]
      rcases max_choice a x with hm | hm <;> rw [hm] <;> simp
    · simp [h]

theorem foldl_max_le (l : List Rat) :
    ∀ a : Rat, a ≤ l.foldl max a ∧ ∀ x ∈ l, x ≤ l.foldl max a := by
  induction l with
  | nil => intro a; simp
  | cons x xs ih =>
    intro a
    obtain ⟨h1, h2⟩ := ih (max a x)
    refine ⟨le_trans (le_max_left a x) h1, ?_⟩
    intro y hy
    rcases List.mem_cons.mp hy with rfl | hm
    · exact le_trans (le_max_right a y) h1
    · exact h2 y hm

theorem listMin_mem (l : List Rat) (h : l ≠ []) : listMin l ∈ l := by
  cases l with
  | nil => exact absurd rfl h
  | cons x xs => simpa [listMin] using foldl_min_mem xs x

theorem listMin_le (l : List Rat) : ∀ x ∈ l, listMin l ≤ x := by
  cases l with
  | nil => simp
  | cons x xs =>
    intro y hy
    rcases List.mem_cons.mp hy with rfl | hm
    · exact (foldl_min_le xs y).1
    · exact (foldl_min_le xs x).2 y hm

theorem listMax_mem (l : List Rat) (h : l ≠ []) : listMax l ∈ l := by
  cases l with
  | nil => exact absurd rfl h
  | cons x xs => simpa [listMax] using foldl_max_mem xs x

theorem le_listMax (l : List Rat) : ∀ x ∈ l, x ≤ listMax l := by
  cases l with
  | nil => simp
  | cons x xs =>
    intro y hy
    rcases List.mem_cons.mp hy with rfl | hm
    · exact (foldl_max_le xs y).1
    · exact (foldl_max_le xs x).2 y hm

theorem listMin_perm (l1 l2 : List Rat) (h : l1.Perm l2) : listMin l1 = listMin l2 := by
  by_cases h1 : l1 = []
  · rw [h1] at h ⊢
    rw [List.Perm.eq_nil h.symm]
  · have h2 : l2 ≠ [] := fun hc => h1 (List.Perm.eq_nil (hc ▸ h))
    apply le_antisymm
    · exact listMin_le l1 _ (h.mem_iff.mpr (listMin_mem l2 h2))
    · exact listMin_le l2 _ (h.mem_iff.mp (listMin_mem l1 h1))

theorem listMax_perm (l1 l2 : List Rat) (h : l1.Perm l2) : listMax l1 = listMax l2 := by
  by_cases h1 : l1 = []
  · rw [h1] at h ⊢
    rw [List.Perm.eq_nil h.symm]
  · have h2 : l2 ≠ [] := fun hc => h1 (List.Perm.eq_nil (hc ▸ h))
    apply le_antisymm
    · exact le_listMax l2 _ (h.mem_iff.mp (listMax_mem l1 h1))
    · exact le_listMax l1 _ (h.mem_iff.mpr (listMax_mem l2 h2))

theorem listMean_perm (l1 l2 : List Rat) (h : l1.Perm l2) : listMean l1 = listMean l2 := by
  unfold listMean
  rw [h.sum_eq, h.length_eq]

theorem listVar_perm (l1 l2 : List Rat) (h : l1.Perm l2) : listVar l1 = listVar l2 := by
  unfold listVar
  rw [listMean_perm l1 l2 h, (h.map _).sum_eq, h.length_eq]

theorem mkStats_perm (l1 l2 : List Rat) (h : l1.Perm l2) : mkStats l1 = mkStats l2 := by
  unfold mkStats
  rw [listMean_perm l1 l2 h, listVar_perm l1 l2 h, listMin_perm l1 l2 h,
      listMax_perm l1 l2 h, h.length_eq]

theorem find?_map_key {β γ : Type} (g : List (String × β)) (F : String × β → γ) (m : String) :
    ((g.map (fun p => (p.1, F p))).find? (fun x => x.1 = m)) =
      (g.find? (fun p => p.1 = m)).map (fun p => (p.1, F p)) := by
  induction g with
  | nil => rfl
  | cons p rest ih =>
    by_cases hp : p.1 = m
    · rw [List.map_cons, List.find?_cons_of_pos _ (by simp [hp]),
          List.find?_cons_of_pos _ (by simp [hp]), Option.map_some']
    · rw [List.map_cons, List.find?_cons_of_neg _ (by simp [hp]),
          List.find?_cons_of_neg _ (by simp [hp])]
      exact ih

theorem statFor_aggregate (e : List ChunkEvaluation) (m met : String) :
    statFor (aggregate_results e) m met =
      if modelScores e m met = [] then none
      else some (mkStats (modelScores e m met)) := by
  obtain ⟨hnd, hinner, hne, hval⟩ := GSWF_groupScores e
  unfold statFor
  rw [show (aggregate_results e).by_model =
        (groupScores e).map (fun p => (p.1, p.2.map (fun q => (q.1, mkStats q.2)))) from rfl]
  rw [find?_map_key]
  cases hf : (groupScores e).find? (fun p => p.1 = m) with
  | none =>
    have hms : modelScores e m met = [] := by
      rw [← gLookup_groupScores]
      unfold gLookup
      rw [dget_eq_default_of_find?_none _ _ _ hf]
      rfl
    rw [if_pos hms]
    rfl
  | some p =>
    have hpg : p ∈ groupScores e := List.mem_of_find?_eq_some hf
    have hdg : dget (groupScores e) m [] = p.2 := dget_eq_snd_of_find? _ _ _ _ hf
    rw [Option.map_some', Option.some_bind]
    rw [show (p.1, p.2.map (fun q => (q.1, mkStats q.2))).2 =
          p.2.map (fun q => (q.1, mkStats q.2)) from rfl]
    rw [find?_map_key]
    cases hf2 : p.2.find? (fun q => q.1 = met) with
    | none =>
      have hms : modelScores e m met = [] := by
        rw [← gLookup_groupScores]
        unfold gLookup
        rw [hdg, dget_eq_default_of_find?_none _ _ _ hf2]
      rw [if_pos hms]
      rfl
    | some q =>
      have hqp : q ∈ p.2 := List.mem_of_find?_eq_some hf2
      have hms : modelScores e m met = q.2 := by
        rw [← gLookup_groupScores]
        unfold gLookup
        rw [hdg, dget_eq_snd_of_find? _ _ _ _ hf2]
      rw [if_neg (by rw [hms]; exact hval p hpg q hqp)]
      rw [hms]
      rfl

theorem statFor_perm (e1 e2 : List ChunkEvaluation) (h : e1.Perm e2) (m met : String) :
    statFor (aggregate_results e1) m met = statFor (aggregate_results e2) m met := by
  rw [statFor_aggregate, statFor_aggregate]
  have hp : (modelScores e1 m met).Perm (modelScores e2 m met) :=
    List.Perm.flatMap_right _ h
  by_cases hnil : modelScores e1 m met = []
  · have h2 : modelScores e2 m met = [] := List.Perm.eq_nil ((hnil ▸ hp).symm)
    rw [if_pos hnil, if_pos h2]
  · have h2 : modelScores e2 m met ≠ [] := fun hc => hnil (List.Perm.eq_nil (hc ▸ hp))
    rw [if_neg hnil, if_neg h2, mkStats_perm _ _ hp]

theorem bucket_partition_perm (mets : List String) (hnd : mets.Nodup)
    (xs : List (String × Rat)) (hcov : ∀ q ∈ xs, q.1 ∈ mets) :
    (mets.flatMap
        (fun met => xs.filterMap (fun p => if p.1 = met then some p.2 else none))).Perm
      (xs.map Prod.snd) := by
  induction xs with
  | nil =>
    simp only [List.filterMap_nil, List.map_nil]
    have : mets.flatMap (fun _ => ([] : List Rat)) = [] := by
      induction mets with
      | nil => rfl
      | cons a rest ih => simp [List.flatMap_cons, ih]
    rw [this]
  | cons q rest ih =>
    have hq : q.1 ∈ mets := hcov q (List.mem_cons_self q rest)
    obtain ⟨l1, l2, hsplit⟩ := List.append_of_mem hq
    have hndspl : (l1 ++ q.1 :: l2).Nodup := hsplit ▸ hnd
    rw [List.nodup_append] at hndspl
    have h1 : q.1 ∉ l1 := fun hc => hndspl.2.2 hc (List.mem_cons_self _ _)
    have h2 : q.1 ∉ l2 := (List.nodup_cons.mp hndspl.2.1).1
    have ihh := ih (fun p hp => hcov p (List.mem_cons_of_mem q hp))
    rw [hsplit] at ihh ⊢
    rw [List.flatMap_append, List.flatMap_cons] at ihh ⊢
    have hB1 : l1.flatMap
          (fun met => (q :: rest).filterMap (fun p => if p.1 = met then some p.2 else none)) =
        l1.flatMap
          (fun met => rest.filterMap (fun p => if p.1 = met then some p.2 else none)) := by
      apply List.flatMap_congr
      intro met hmet
      exact List.filterMap_cons_none (by rw [if_neg (fun hc : q.1 = met => h1 (hc ▸ hmet))])
    have hB2 : l2.flatMap
          (fun met => (q :: rest).filterMap (fun p => if p.1 = met then some p.2 else none)) =
        l2.flatMap
          (fun met => rest.filterMap (fun p => if p.1 = met then some p.2 else none)) := by
      apply List.flatMap_congr
      intro met hmet
      exact List.filterMap_cons_none (by rw [if_neg (fun hc : q.1 = met => h2 (hc ▸ hmet))])
    have hBq : (q :: rest).filterMap (fun p => if p.1 = q.1 then some p.2 else none) =
        q.2 :: rest.filterMap (fun p => if p.1 = q.1 then some p.2 else none) :=
      List.filterMap_cons_some (by simp)
    rw [hB1, hB2, hBq, List.map_cons]
    show (l1.flatMap _ ++ (q.2 :: (_ ++ l2.flatMap _))).Perm (q.2 :: rest.map Prod.snd)
    exact List.Perm.trans List.perm_middle (List.Perm.cons q.2 ihh)

theorem modelScores_eq_pairs (e : List ChunkEvaluation) (m met : String) :
    modelScores e m met =
      (modelPairs e m).filterMap (fun q => if q.1 = met then some q.2 else none) := by
  induction e with
  | nil => rfl
  | cons ev rest ih =>
    unfold modelScores modelPairs at *
    rw [List.flatMap_cons, List.flatMap_cons, List.filterMap_append, ih]
    congr 1
    by_cases hm : ev.model_name = m
    · rw [if_pos hm, if_pos hm, List.filterMap_map]
      rfl
    · rw [if_neg hm, if_neg hm]
      rfl

theorem allModelScores_eq_pairs (e : List ChunkEvaluation) (m : String) :
    allModelScores e m = (modelPairs e m).map Prod.snd := by
  induction e with
  | nil => rfl
  | cons ev rest ih =>
    unfold allModelScores modelPairs at *
    rw [List.flatMap_cons, List.flatMap_cons, List.map_append, ih]
    congr 1
    by_cases hm : ev.model_name = m
    · rw [if_pos hm, if_pos hm, List.map_map]
      rfl
    · rw [if_neg hm, if_neg hm]
      rfl

theorem modelScores_ne_of_mem_pairs (e : List ChunkEvaluation) (m : String)
    (x : String × Rat) (hx : x ∈ modelPairs e m) : modelScores e m x.1 ≠ [] := by
  rw [modelScores_eq_pairs]
  intro hc
  have hmem : x.2 ∈ (modelPairs e m).filterMap
      (fun q => if q.1 = x.1 then some q.2 else none) :=
    List.mem_filterMap.mpr ⟨x, hx, by rw [if_pos rfl]⟩
  rw [hc] at hmem
  simp at hmem

theorem find?_some_of_mem_keys {α : Type} (al : List (String × α)) (k : String)
    (h : k ∈ al.map Prod.fst) : ∃ p, al.find? (fun q => q.1 = k) = some p := by
  rcases List.mem_map.mp h with ⟨p, hp, hpk⟩
  exact Option.isSome_iff_exists.mp
    (List.find?_isSome.mpr ⟨p, hp, by simp [hpk]⟩)

theorem met_mem_keys_iff (e : List ChunkEvaluation) (m met : String) :
    met ∈ (dget (groupScores e) m []).map Prod.fst ↔ modelScores e m met ≠ [] := by
  obtain ⟨hnd, hinner, hne, hval⟩ := GSWF_groupScores e
  constructor
  · intro hmem
    obtain ⟨q, hfq⟩ := find?_some_of_mem_keys _ met hmem
    have hq1 : q.1 = met := by simpa using List.find?_some hfq
    have hqmem : q ∈ dget (groupScores e) m [] := List.mem_of_find?_eq_some hfq
    rw [← gLookup_groupScores]
    unfold gLookup
    rw [dget_eq_snd_of_find? _ _ _ _ hfq]
    cases hg : (groupScores e).find? (fun p => p.1 = m) with
    | none =>
      rw [dget_eq_default_of_find?_none _ _ _ hg] at hqmem
      simp at hqmem
    | some p =>
      rw [dget_eq_snd_of_find? _ _ _ _ hg] at hqmem
      exact hval p (List.mem_of_find?_eq_some hg) q hqmem
  · intro hms
    apply mem_keys_of_dget_ne _ _ ([] : List Rat)
    rw [← gLookup_groupScores] at hms
    exact hms

theorem m_mem_keys_iff (e : List ChunkEvaluation) (m : String) :
    m ∈ (groupScores e).map Prod.fst ↔ ∃ met, modelScores e m met ≠ [] := by
  obtain ⟨hnd, hinner, hne, hval⟩ := GSWF_groupScores e
  constructor
  · intro hmem
    obtain ⟨p, hfp⟩ := find?_some_of_mem_keys _ m hmem
    have hpg : p ∈ groupScores e := List.mem_of_find?_eq_some hfp
    match hp2 : p.2, hne p hpg with
    | q :: qs, _ =>
      refine ⟨q.1, ?_⟩
      rw [← gLookup_groupScores]
      unfold gLookup
      rw [dget_eq_snd_of_find? _ _ _ _ hfp, hp2,
          dget_eq_snd_of_find? _ _ _ _ (List.find?_cons_of_pos _ (by simp))]
      have : q ∈ p.2 := by rw [hp2]; exact List.mem_cons_self q qs
      exact hval p hpg q this
  · rintro ⟨met, hms⟩
    apply mem_keys_of_dget_ne _ _ ([] : List (String × List Rat))
    intro hc
    rw [← gLookup_groupScores] at hms
    unfold gLookup at hms
    rw [hc] at hms
    exact hms (by rfl)

theorem modelScores_perm (e1 e2 : List ChunkEvaluation) (h : e1.Perm e2) (m met : String) :
    (modelScores e1 m met).Perm (modelScores e2 m met) :=
  List.Perm.flatMap_right _ h

theorem allModelScores_perm (e1 e2 : List ChunkEvaluation) (h : e1.Perm e2) (m : String) :
    (allModelScores e1 m).Perm (allModelScores e2 m) :=
  List.Perm.flatMap_right _ h

theorem flatMean_perm (e1 e2 : List ChunkEvaluation) (h : e1.Perm e2) (m : String) :
    flatMean e1 m = flatMean e2 m := by
  unfold flatMean
  have hp := allModelScores_perm e1 e2 h m
  by_cases hnil : allModelScores e1 m = []
  · have h2 : allModelScores e2 m = [] := by
      rw [hnil] at hp
      exact List.Perm.eq_nil hp.symm
    rw [if_pos hnil, if_pos h2]
  · have h2 : allModelScores e2 m ≠ [] := by
      intro hc
      rw [hc] at hp
      exact hnil (List.Perm.eq_nil hp)
    rw [if_neg hnil, if_neg h2, listMean_perm _ _ hp]

theorem alist_snd_eq {α : Type} (al : List (String × α)) (h : NodupKeys al) (d : α) :
    al.map Prod.snd = (al.map Prod.fst).map (fun k => dget al k d) := by
  induction al with
  | nil => rfl
  | cons hd rest ih =>
    unfold NodupKeys at h
    simp only [List.map_cons, List.nodup_cons] at h
    rw [List.map_cons, List.map_cons, List.map_cons]
    congr 1
    · exact (dget_eq_snd_of_find? _ _ _ _ (List.find?_cons_of_pos _ (by simp))).symm
    · rw [ih h.2]
      apply List.map_congr_left
      intro k hk
      have hne : hd.1 ≠ k := fun hc => h.1 (hc ▸ hk)
      show dget rest k d = dget (hd :: rest) k d
      unfold dget
      rw [List.find?_cons_of_neg _ (by simp [hne])]

theorem modelAvgVal_eq_flatMean (e : List ChunkEvaluation) (p : String × List (String × List Rat))
    (hp : p ∈ groupScores e) : modelAvgVal p.2 = flatMean e p.1 := by
  obtain ⟨hnd, hinner, hne, hval⟩ := GSWF_groupScores e
  have hdg : dget (groupScores e) p.1 [] = p.2 :=
    dget_eq_snd_of_find? _ _ _ _ (find?_of_mem_nodupKeys _ hnd p hp)
  have hsnd : p.2.map Prod.snd =
      (p.2.map Prod.fst).map (fun met => modelScores e p.1 met) := by
    rw [alist_snd_eq p.2 (hinner p hp) []]
    apply List.map_congr_left
    intro met _
    show dget p.2 met [] = modelScores e p.1 met
    rw [← gLookup_groupScores]
    unfold gLookup
    rw [hdg]
  have hperm : (p.2.map Prod.snd).flatten.Perm (allModelScores e p.1) := by
    rw [hsnd]
    rw [show ((p.2.map Prod.fst).map (fun met => modelScores e p.1 met)).flatten =
          (p.2.map Prod.fst).flatMap (fun met => modelScores e p.1 met) from
        (List.flatMap_def _ _).symm]
    rw [allModelScores_eq_pairs]
    have hcov : ∀ q ∈ modelPairs e p.1, q.1 ∈ p.2.map Prod.fst := by
      intro q hq
      rw [show p.2.map Prod.fst = (dget (groupScores e) p.1 []).map Prod.fst from by rw [hdg]]
      exact (met_mem_keys_iff e p.1 q.1).mpr (modelScores_ne_of_mem_pairs e p.1 q hq)
    have := bucket_partition_perm (p.2.map Prod.fst)
      (by have := hinner p hp; exact this) (modelPairs e p.1) hcov
    refine List.Perm.trans ?_ this
    apply List.Perm.of_eq
    apply List.flatMap_congr
    intro met _
    exact modelScores_eq_pairs e p.1 met
  unfold modelAvgVal flatMean
  by_cases hnil : (p.2.map (fun q => q.2)).flatten = []
  · have h2 : allModelScores e p.1 = [] := by
      have hflat : ((p.2.map Prod.snd).flatten : List Rat) = [] := hnil
      rw [hflat] at hperm
      exact List.Perm.eq_nil hperm.symm
    rw [if_pos hnil, if_pos h2]
  · have h2 : allModelScores e p.1 ≠ [] := by
      intro hc
      rw [hc] at hperm
      exact hnil (List.Perm.eq_nil hperm)
    rw [if_neg hnil, if_neg h2]
    exact listMean_perm _ _ hperm

theorem modelAverages_eq (e : List ChunkEvaluation) :
    modelAveragesOf (groupScores e) =
      ((groupScores e).map Prod.fst).map (fun m => (m, flatMean e m)) := by
  unfold modelAveragesOf
  rw [List.map_map]
  apply List.map_congr_left
  intro p hp
  show (p.1, modelAvgVal p.2) = (p.1, flatMean e p.1)
  rw [modelAvgVal_eq_flatMean e p hp]

theorem keys_groupScores_perm (e1 e2 : List ChunkEvaluation) (h : e1.Perm e2) :
    ((groupScores e1).map Prod.fst).Perm ((groupScores e2).map Prod.fst) := by
  rw [List.perm_ext_iff_of_nodup (GSWF_groupScores e1).1 (GSWF_groupScores e2).1]
  intro m
  rw [m_mem_keys_iff, m_mem_keys_iff]
  constructor
  · rintro ⟨met, hms⟩
    refine ⟨met, fun hc => hms ?_⟩
    have hp := modelScores_perm e1 e2 h m met
    rw [hc] at hp
    exact List.Perm.eq_nil hp
  · rintro ⟨met, hms⟩
    refine ⟨met, fun hc => hms ?_⟩
    have hp := modelScores_perm e1 e2 h m met
    rw [hc] at hp
    exact List.Perm.eq_nil hp.symm

theorem mem_modelsOf_of_modelScores_ne (e : List ChunkEvaluation) (m met : String)
    (h : modelScores e m met ≠ []) : m ∈ modelsOf e := by
  unfold modelScores at h
  rcases List.exists_mem_of_ne_nil _ h with ⟨v, hv⟩
  rcases List.mem_flatMap.mp hv with ⟨ev, hev, hvin⟩
  by_cases hm : ev.model_name = m
  · unfold modelsOf
    rw [List.mem_dedup]
    exact hm ▸ List.mem_map_of_mem _ hev
  · rw [if_neg hm] at hvin
    simp at hvin

theorem rankings_eq_of_perm (e1 e2 : List ChunkEvaluation) (hperm : e1.Perm e2)
    (hdist : (modelsOf e1).Pairwise (fun m m' => flatMean e1 m ≠ flatMean e1 m')) :
    (aggregate_results e1).overall_rankings = (aggregate_results e2).overall_rankings := by
  have hr1 : (aggregate_results e1).overall_rankings =
      List.insertionSort rankLE (modelAveragesOf (groupScores e1)) := rfl
  have hr2 : (aggregate_results e2).overall_rankings =
      List.insertionSort rankLE (modelAveragesOf (groupScores e2)) := rfl
  rw [hr1, hr2]
  have hma : (modelAveragesOf (groupScores e1)).Perm (modelAveragesOf (groupScores e2)) := by
    rw [modelAverages_eq, modelAverages_eq]
    rw [show ((groupScores e2).map Prod.fst).map (fun m => (m, flatMean e2 m)) =
          ((groupScores e2).map Prod.fst).map (fun m => (m, flatMean e1 m)) from
        List.map_congr_left (fun m _ => by rw [flatMean_perm e1 e2 hperm m])]
    exact List.Perm.map _ (keys_groupScores_perm e1 e2 hperm)
  have hsubset : ∀ m ∈ (groupScores e1).map Prod.fst, m ∈ modelsOf e1 := by
    intro m hm
    rcases (m_mem_keys_iff e1 m).mp hm with ⟨met, hms⟩
    exact mem_modelsOf_of_modelScores_ne e1 m met hms
  have hforall := List.Pairwise.forall
    (R := fun m m' => flatMean e1 m ≠ flatMean e1 m') (fun _ _ hab => hab.symm) hdist
  have hne1 : (modelAveragesOf (groupScores e1)).Pairwise (fun a b => a.2 ≠ b.2) := by
    rw [modelAverages_eq, List.pairwise_map]
    refine List.Pairwise.imp_of_mem ?_ (GSWF_groupScores e1).1
    intro a b ha hb hab
    exact hforall (hsubset a ha) (hsubset b hb) hab
  have hp1 := List.perm_insertionSort rankLE (modelAveragesOf (groupScores e1))
  have hp2 := List.perm_insertionSort rankLE (modelAveragesOf (groupScores e2))
  have hs1 := List.sorted_insertionSort rankLE (modelAveragesOf (groupScores e1))
  have hs2 := List.sorted_insertionSort rankLE (modelAveragesOf (groupScores e2))
  have hsym : ∀ {x y : String × Rat}, x.2 ≠ y.2 → y.2 ≠ x.2 := fun h => h.symm
  have hne1s : (List.insertionSort rankLE
      (modelAveragesOf (groupScores e1))).Pairwise (fun a b => a.2 ≠ b.2) :=
    (List.Perm.pairwise_iff hsym hp1).mpr hne1
  have hne2s : (List.insertionSort rankLE
      (modelAveragesOf (groupScores e2))).Pairwise (fun a b => a.2 ≠ b.2) :=
    (List.Perm.pairwise_iff hsym (hp2.trans (hma.symm))).mpr hne1
  have hst1 : (List.insertionSort rankLE
      (modelAveragesOf (groupScores e1))).Pairwise (fun a b : String × Rat => b.2 < a.2) :=
    (hs1.and hne1s).imp (fun hab => lt_of_le_of_ne hab.1 (Ne.symm hab.2))
  have hst2 : (List.insertionSort rankLE
      (modelAveragesOf (groupScores e2))).Pairwise (fun a b : String × Rat => b.2 < a.2) :=
    (hs2.and hne2s).imp (fun hab => lt_of_le_of_ne hab.1 (Ne.symm hab.2))
  have hs12 : (List.insertionSort rankLE (modelAveragesOf (groupScores e1))).Perm
      (List.insertionSort rankLE (modelAveragesOf (groupScores e2))) :=
    hp1.trans (hma.trans hp2.symm)
  haveI : IsAntisymm (String × Rat) (fun a b => b.2 < a.2) :=
    ⟨fun _ _ h1 h2 => (lt_asymm h1 h2).elim⟩
  exact List.eq_of_perm_of_sorted hs12 hst1 hst2

theorem bm_inner (m : String) (inner : List (String × List Rat)) (hinner : NodupKeys inner) :
    ∀ (acc : List (String × List (String × Rat))),
      (∀ met' ∈ inner.map Prod.fst, m ∉ (dget acc met' []).map Prod.fst) →
      ∀ met,
        dget (inner.foldl
            (fun acc2 q => dmod q.1 (fun ms => dictSet m (listMean q.2) (ms.getD [])) acc2)
            acc) met [] =
          dget acc met [] ++
            inner.filterMap (fun q => if q.1 = met then some (m, listMean q.2) else none) := by
  induction inner with
  | nil =>
    intro acc _ met
    simp
  | cons q rest ih =>
    intro acc hm met
    unfold NodupKeys at hinner
    simp only [List.map_cons, List.nodup_cons] at hinner
    have hq1rest : q.1 ∉ rest.map Prod.fst := hinner.1
    have hstep : ∀ met'', dget (dmod q.1
        (fun ms => dictSet m (listMean q.2) (ms.getD [])) acc) met'' [] =
        if met'' = q.1 then dget acc q.1 [] ++ [(m, listMean q.2)] else dget acc met'' [] := by
      intro met''
      by_cases hq : met'' = q.1
      · rw [if_pos hq, hq, dget_dmod_self, ← dget_eq_getD]
        exact dictSet_append_of_not_mem _ _ _ (hm q.1 (by simp))
      · rw [if_neg hq, dget_dmod_other _ _ _ _ _ hq]
    rw [List.foldl_cons, ih hinner.2 _ ?hinv met]
    case hinv =>
      intro met' hmet'
      rw [hstep met', if_neg (fun hc : met' = q.1 => hq1rest (hc ▸ hmet'))]
      exact hm met' (List.mem_cons_of_mem _ hmet')
    rw [hstep met]
    by_cases hq : met = q.1
    · subst hq
      rw [if_pos rfl, List.filterMap_cons_some (by rw [if_pos rfl])]
      have hrest : rest.filterMap
          (fun q' => if q'.1 = q.1 then some (m, listMean q'.2) else none) = [] := by
        rw [List.filterMap_eq_nil_iff]
        intro q' hq'
        rw [if_neg (fun hc : q'.1 = q.1 => hq1rest (hc ▸ List.mem_map_of_mem Prod.fst hq'))]
      rw [hrest]
      simp
    · rw [if_neg hq, List.filterMap_cons_none (by rw [if_neg (fun hc : q.1 = met => hq hc.symm)])]

theorem bm_inner_keys (m : String) (inner : List (String × List Rat))
    (hinner : NodupKeys inner) (acc : List (String × List (String × Rat)))
    (hm : ∀ met' ∈ inner.map Prod.fst, m ∉ (dget acc met' []).map Prod.fst)
    (met : String) (x : String)
    (hx : x ∈ (dget (inner.foldl
        (fun acc2 q => dmod q.1 (fun ms => dictSet m (listMean q.2) (ms.getD [])) acc2)
        acc) met []).map Prod.fst) :
    x ∈ (dget acc met []).map Prod.fst ∨ x = m := by
  rw [bm_inner m inner hinner acc hm met, List.map_append] at hx
  rcases List.mem_append.mp hx with h | h
  · exact Or.inl h
  · right
    rcases List.mem_map.mp h with ⟨p, hp, hpx⟩
    rcases List.mem_filterMap.mp hp with ⟨q, _, hqe⟩
    by_cases hq : q.1 = met
    · rw [if_pos hq] at hqe
      rw [← hpx, ← Option.some_inj.mp hqe]
    · rw [if_neg hq] at hqe
      exact absurd hqe (by simp)

theorem bm_outer (g : List (String × List (String × List Rat))) (hout : NodupKeys g)
    (hinner : ∀ p ∈ g, NodupKeys p.2) :
    ∀ (acc : List (String × List (String × Rat))),
      (∀ p ∈ g, ∀ met', p.1 ∉ (dget acc met' []).map Prod.fst) →
      ∀ met, dget (g.foldl bmStep acc) met [] =
        dget acc met [] ++
          g.flatMap (fun p =>
            p.2.filterMap (fun q => if q.1 = met then some (p.1, listMean q.2) else none)) := by
  induction g with
  | nil =>
    intro acc _ met
    simp
  | cons p rest ihg =>
    intro acc hdisj met
    unfold NodupKeys at hout
    simp only [List.map_cons, List.nodup_cons] at hout
    have hpin : ∀ met' ∈ p.2.map Prod.fst, p.1 ∉ (dget acc met' []).map Prod.fst :=
      fun met' _ => hdisj p (List.mem_cons_self p rest) met'
    have hstep := bm_inner p.1 p.2 (hinner p (List.mem_cons_self p rest)) acc hpin
    have hdisj2 : ∀ p' ∈ rest, ∀ met', p'.1 ∉ (dget (bmStep acc p) met' []).map Prod.fst := by
      intro p' hp' met' hc
      rcases bm_inner_keys p.1 p.2 (hinner p (List.mem_cons_self p rest)) acc hpin met'
          p'.1 hc with h | h
      · exact hdisj p' (List.mem_cons_of_mem p hp') met' h
      · exact hout.1 (h ▸ List.mem_map_of_mem Prod.fst hp')
    rw [List.foldl_cons,
        ihg hout.2 (fun p' hp' => hinner p' (List.mem_cons_of_mem p hp')) (bmStep acc p)
          hdisj2 met]
    rw [show dget (bmStep acc p) met [] = dget acc met [] ++
          p.2.filterMap (fun q => if q.1 = met then some (p.1, listMean q.2) else none) from
        hstep met]
    rw [List.flatMap_cons, List.append_assoc]

theorem dget_buildByMetric (e : List ChunkEvaluation) (met : String) :
    dget (buildByMetric (groupScores e)) met [] =
      (groupScores e).flatMap (fun p =>
        p.2.filterMap (fun q => if q.1 = met then some (p.1, listMean q.2) else none)) := by
  unfold buildByMetric
  rw [bm_outer (groupScores e) (GSWF_groupScores e).1 (GSWF_groupScores e).2.1 []
      (by intro p _ met'; simp [dget]) met]
  rfl

theorem mem_byMetricRow_iff (e : List ChunkEvaluation) (met : String) (x : String × Rat) :
    x ∈ dget (buildByMetric (groupScores e)) met [] ↔
      modelScores e x.1 met ≠ [] ∧ x.2 = listMean (modelScores e x.1 met) := by
  obtain ⟨hnd, hinner, hne, hval⟩ := GSWF_groupScores e
  rw [dget_buildByMetric, List.mem_flatMap]
  constructor
  · rintro ⟨p, hp, hq⟩
    rcases List.mem_filterMap.mp hq with ⟨q, hqin, hqe⟩
    by_cases hq1 : q.1 = met
    · rw [if_pos hq1] at hqe
      have hx : x = (p.1, listMean q.2) := (Option.some_inj.mp hqe).symm
      have hfp : (groupScores e).find? (fun z => z.1 = p.1) = some p :=
        find?_of_mem_nodupKeys _ hnd p hp
      have hfq : p.2.find? (fun z => z.1 = met) = some q := by
        have := find?_of_mem_nodupKeys _ (hinner p hp) q hqin
        rwa [hq1] at this
      have hms : modelScores e p.1 met = q.2 := by
        rw [← gLookup_groupScores]
        unfold gLookup
        rw [dget_eq_snd_of_find? _ _ _ _ hfp, dget_eq_snd_of_find? _ _ _ _ hfq]
      rw [hx]
      exact ⟨by rw [hms]; exact hval p hp q hqin, by rw [hms]⟩
    · rw [if_neg hq1] at hqe
      exact absurd hqe (by simp)
  · rintro ⟨hms, hxv⟩
    have hmk : x.1 ∈ (groupScores e).map Prod.fst :=
      (m_mem_keys_iff e x.1).mpr ⟨met, hms⟩
    obtain ⟨p, hfp⟩ := find?_some_of_mem_keys _ x.1 hmk
    have hp1 : p.1 = x.1 := by simpa using List.find?_some hfp
    have hpg : p ∈ groupScores e := List.mem_of_find?_eq_some hfp
    have hdg : dget (groupScores e) x.1 [] = p.2 := dget_eq_snd_of_find? _ _ _ _ hfp
    have hmetk : met ∈ p.2.map Prod.fst := by
      have := (met_mem_keys_iff e x.1 met).mpr hms
      rwa [hdg] at this
    obtain ⟨q, hfq⟩ := find?_some_of_mem_keys _ met hmetk
    have hq1 : q.1 = met := by simpa using List.find?_some hfq
    have hqin : q ∈ p.2 := List.mem_of_find?_eq_some hfq
    have hmsq : modelScores e x.1 met = q.2 := by
      rw [← gLookup_groupScores]
      unfold gLookup
      rw [hdg, dget_eq_snd_of_find? _ _ _ _ hfq]
    refine ⟨p, hpg, List.mem_filterMap.mpr ⟨q, hqin, ?_⟩⟩
    rw [if_pos hq1, hp1]
    rw [Option.some_inj]
    have : x = (x.1, x.2) := rfl
    rw [this, hxv, hmsq]

theorem pyFold_spec (xs : List (String × Rat)) :
    ∀ a : String × Rat,
      (xs.foldl (fun b y => if y.2 > b.2 then y else b) a) ∈ a :: xs ∧
      a.2 ≤ (xs.foldl (fun b y => if y.2 > b.2 then y else b) a).2 ∧
      ∀ y ∈ xs, y.2 ≤ (xs.foldl (fun b y => if y.2 > b.2 then y else b) a).2 := by
  induction xs with
  | nil =>
    intro a
    refine ⟨by simp, le_refl _, by simp⟩
  | cons x rest ih =>
    intro a
    rw [List.foldl_cons]
    by_cases hx : x.2 > a.2
    · rw [if_pos hx]
      obtain ⟨hmem, hle, hall⟩ := ih x
      refine ⟨?_, le_trans (le_of_lt hx) hle, ?_⟩
      · rcases List.mem_cons.mp hmem with h | h
        · rw [h]; simp
        · simp [h]
      · intro y hy
        rcases List.mem_cons.mp hy with rfl | h
        · exact hle
        · exact hall y h
    · rw [if_neg hx]
      obtain ⟨hmem, hle, hall⟩ := ih a
      refine ⟨?_, hle, ?_⟩
      · rcases List.mem_cons.mp hmem with h | h
        · rw [h]; simp
        · simp [h]
      · intro y hy
        rcases List.mem_cons.mp hy with rfl | h
        · exact le_trans (le_of_not_lt hx) hle
        · exact hall y h

theorem pyMax_spec (l : List (String × Rat)) (x : String × Rat)
    (h : pyMaxBySnd l = some x) : x ∈ l ∧ ∀ y ∈ l, y.2 ≤ x.2 := by
  cases l with
  | nil => simp [pyMaxBySnd] at h
  | cons a rest =>
    unfold pyMaxBySnd at h
    have hx := Option.some_inj.mp h
    obtain ⟨hmem, hle, hall⟩ := pyFold_spec rest a
    rw [hx] at hmem hle hall
    refine ⟨hmem, ?_⟩
    intro y hy
    rcases List.mem_cons.mp hy with rfl | hr
    · exact hle
    · exact hall y hr

theorem pyMax_none_iff (l : List (String × Rat)) : pyMaxBySnd l = none ↔ l = [] := by
  cases l <;> simp [pyMaxBySnd]

theorem pyMax_eq_of_mem_iff (l1 l2 : List (String × Rat))
    (hmem : ∀ x, x ∈ l1 ↔ x ∈ l2)
    (hinj : ∀ x ∈ l1, ∀ y ∈ l1, x.2 = y.2 → x = y) :
    pyMaxBySnd l1 = pyMaxBySnd l2 := by
  cases h1 : pyMaxBySnd l1 with
  | none =>
    rw [pyMax_none_iff] at h1
    have h2 : l2 = [] := by
      rw [List.eq_nil_iff_forall_not_mem]
      intro x hx
      have hx1 := (hmem x).mpr hx
      rw [h1] at hx1
      simp at hx1
    rw [(pyMax_none_iff l2).mpr h2]
  | some x =>
    cases h2 : pyMaxBySnd l2 with
    | none =>
      rw [pyMax_none_iff] at h2
      obtain ⟨hx1, _⟩ := pyMax_spec l1 x h1
      have hx2 := (hmem x).mp hx1
      rw [h2] at hx2
      simp at hx2
    | some y =>
      obtain ⟨hx1, hxmax⟩ := pyMax_spec l1 x h1
      obtain ⟨hy2, hymax⟩ := pyMax_spec l2 y h2
      have hy1 : y ∈ l1 := (hmem y).mpr hy2
      have hx2 : x ∈ l2 := (hmem x).mp hx1
      have hv : x.2 = y.2 := le_antisymm (hymax x hx2) (hxmax y hy1)
      rw [hinj x hx1 y hy1 hv]

theorem bestFor_eq_of_perm (e1 e2 : List ChunkEvaluation) (hperm : e1.Perm e2) (met : String)
    (hdist : (modelsOf e1).Pairwise (fun m m' =>
      modelScores e1 m met ≠ [] → modelScores e1 m' met ≠ [] →
        listMean (modelScores e1 m met) ≠ listMean (modelScores e1 m' met))) :
    bestFor (aggregate_results e1) met = bestFor (aggregate_results e2) met := by
  unfold bestFor
  rw [show (aggregate_results e1).by_metric = buildByMetric (groupScores e1) from rfl,
      show (aggregate_results e2).by_metric = buildByMetric (groupScores e2) from rfl]
  have hchar2 : ∀ x : String × Rat,
      x ∈ dget (buildByMetric (groupScores e2)) met [] ↔
        modelScores e1 x.1 met ≠ [] ∧ x.2 = listMean (modelScores e1 x.1 met) := by
    intro x
    rw [mem_byMetricRow_iff e2 met x]
    have hp := modelScores_perm e1 e2 hperm x.1 met
    constructor
    · rintro ⟨ha, hb⟩
      constructor
      · intro hc
        rw [hc] at hp
        exact ha (List.Perm.eq_nil hp.symm)
      · rw [hb]
        exact (listMean_perm _ _ hp).symm
    · rintro ⟨ha, hb⟩
      constructor
      · intro hc
        rw [hc] at hp
        exact ha (List.Perm.eq_nil hp)
      · rw [hb]
        exact listMean_perm _ _ hp
  apply pyMax_eq_of_mem_iff
  · intro x
    rw [List.mem_filter, List.mem_filter, mem_byMetricRow_iff e1 met x, hchar2 x]
  · intro x hx y hy hxy
    have hxc := (mem_byMetricRow_iff e1 met x).mp (List.mem_filter.mp hx).1
    have hyc := (mem_byMetricRow_iff e1 met y).mp (List.mem_filter.mp hy).1
    by_cases hk : x.1 = y.1
    · have : x = (x.1, x.2) := rfl
      rw [this, hk, hxy]
    · have hforall := List.Pairwise.forall
        (R := fun m m' => modelScores e1 m met ≠ [] → modelScores e1 m' met ≠ [] →
          listMean (modelScores e1 m met) ≠ listMean (modelScores e1 m' met))
        (fun _ _ hab hm' hm => (hab hm hm').symm) hdist
      have hxm : x.1 ∈ modelsOf e1 := mem_modelsOf_of_modelScores_ne e1 x.1 met hxc.1
      have hym : y.1 ∈ modelsOf e1 := mem_modelsOf_of_modelScores_ne e1 y.1 met hyc.1
      exact absurd (by rw [← hxc.2, ← hyc.2]; exact hxy)
        (hforall hxm hym hk hxc.1 hyc.1)

/-- Claim C3 (counterexample): two chunk evaluations for distinct models
with the identical score are a permutation pair on which aggregate_results
returns different summaries: with tied overall averages the stable
descending sort keeps encounter order, so overall_rankings comes out in a
different order for the two input orders. -/
theorem claim3_counterexample :
    [evTieA, evTieB].Perm [evTieB, evTieA] ∧
    (aggregate_results [evTieA, evTieB]).overall_rankings ≠
      (aggregate_results [evTieB, evTieA]).overall_rankings := by
  refine ⟨List.Perm.swap evTieB evTieA [], ?_⟩
  have h1 : (aggregate_results [evTieA, evTieB]).overall_rankings =
      [("alpha", listMean [(1 : Rat)/2]), ("beta", listMean [(1 : Rat)/2])] := by
    show List.insertionSort rankLE (modelAveragesOf (groupScores [evTieA, evTieB])) = _
    norm_num [groupScores, addEval, addScore, dmod, evTieA, evTieB, modelAveragesOf,
      modelAvgVal, List.insertionSort, List.orderedInsert, rankLE, dget, List.find?]
  have h2 : (aggregate_results [evTieB, evTieA]).overall_rankings =
      [("beta", listMean [(1 : Rat)/2]), ("alpha", listMean [(1 : Rat)/2])] := by
    show List.insertionSort rankLE (modelAveragesOf (groupScores [evTieB, evTieA])) = _
    norm_num [groupScores, addEval, addScore, dmod, evTieA, evTieB, modelAveragesOf,
      modelAvgVal, List.insertionSort, List.orderedInsert, rankLE, dget, List.find?]
  intro h
  rw [h1, h2] at h
  simp at h

/-- Claim C3 (amended): aggregate_results is order-independent on all the
per-(model, metric) statistics cells; the per-metric best model and the
overall_rankings list are also order-independent provided no two models tie
(on that metric's mean, resp. on the flattened overall mean) — with exact
ties, the tied entries follow input encounter order and may differ between
permutations, as the counterexample shows. -/
theorem claim3_amended_order_independence (e1 e2 : List ChunkEvaluation)
    (hperm : e1.Perm e2) :
    (∀ m met, statFor (aggregate_results e1) m met = statFor (aggregate_results e2) m met) ∧
    ((modelsOf e1).Pairwise (fun m m' => flatMean e1 m ≠ flatMean e1 m') →
      (aggregate_results e1).overall_rankings = (aggregate_results e2).overall_rankings) ∧
    (∀ met, (modelsOf e1).Pairwise (fun m m' =>
        modelScores e1 m met ≠ [] → modelScores e1 m' met ≠ [] →
          listMean (modelScores e1 m met) ≠ listMean (modelScores e1 m' met)) →
      bestFor (aggregate_results e1) met = bestFor (aggregate_results e2) met) :=
  ⟨statFor_perm e1 e2 hperm, rankings_eq_of_perm e1 e2 hperm,
   fun met hdist => bestFor_eq_of_perm e1 e2 hperm met hdist⟩

/-- Witness for claim C3 (amended) at a concrete input. -/
theorem claim3_witness :
    [evW1, evW2].Perm [evW2, evW1] ∧
    ((∀ m met, statFor (aggregate_results [evW1, evW2]) m met =
        statFor (aggregate_results [evW2, evW1]) m met) ∧
     ((modelsOf [evW1, evW2]).Pairwise
        (fun m m' => flatMean [evW1, evW2] m ≠ flatMean [evW1, evW2] m') →
      (aggregate_results [evW1, evW2]).overall_rankings =
        (aggregate_results [evW2, evW1]).overall_rankings) ∧
     (∀ met, (modelsOf [evW1, evW2]).Pairwise (fun m m' =>
          modelScores [evW1, evW2] m met ≠ [] → modelScores [evW1, evW2] m' met ≠ [] →
            listMean (modelScores [evW1, evW2] m met) ≠
              listMean (modelScores [evW1, evW2] m' met)) →
        bestFor (aggregate_results [evW1, evW2]) met =
          bestFor (aggregate_results [evW2, evW1]) met)) :=
  ⟨List.Perm.swap evW2 evW1 [],
   claim3_amended_order_independence [evW1, evW2] [evW2, evW1]
     (List.Perm.swap evW2 evW1 [])⟩

/-- Claim C5: every entry of overall_rankings carries, for its model, the
unweighted arithmetic mean of all of that model's individual scores
flattened across all metrics and chunks (not a mean of per-metric means);
the list is sorted descending by that scalar and contains exactly one entry
per grouped model. -/
theorem claim5_overall_rankings (e : List ChunkEvaluation) :
    (∀ p ∈ (aggregate_results e).overall_rankings, p.2 = flatMean e p.1) ∧
    (aggregate_results e).overall_rankings.Pairwise rankLE ∧
    (aggregate_results e).overall_rankings.Perm
      (((groupScores e).map Prod.fst).map (fun m => (m, flatMean e m))) := by
  have hr : (aggregate_results e).overall_rankings =
      List.insertionSort rankLE (modelAveragesOf (groupScores e)) := rfl
  have hperm := List.perm_insertionSort rankLE (modelAveragesOf (groupScores e))
  refine ⟨?_, ?_, ?_⟩
  · intro p hp
    rw [hr] at hp
    have hp2 : p ∈ modelAveragesOf (groupScores e) := hperm.mem_iff.mp hp
    rw [modelAverages_eq] at hp2
    rcases List.mem_map.mp hp2 with ⟨m, _, hm⟩
    rw [← hm]
  · rw [hr]
    exact List.sorted_insertionSort rankLE _
  · rw [hr, ← modelAverages_eq]
    exact hperm
